import Mathlib

/-!
Verification of the viewport-driven geospatial query and clustering engine of
the warning-messages map application.

The JavaScript source is shallowly embedded: JS numbers are modelled as real
numbers (`ℝ`) where the code does real arithmetic and trigonometry, as
rationals (`ℚ`) for timestamps and durations, and as integers (`ℤ`/`ℕ`) for
tile indices and counts.  Host-provided string parsing (`Number(...)`,
`Date.parse(...)`) is modelled by records carrying the parse results, and the
string keys the code builds by interpolation are modelled by structured values
(the interpolations involved are injective on the data that reaches them).
-/

open scoped Classical

namespace WarnMap

/-! ### JS numeric primitives -/

/-- Truncation toward zero, as the JS `%` operator applies to the quotient. -/
noncomputable def jsTrunc (t : ℝ) : ℤ := if 0 ≤ t then ⌊t⌋ else ⌈t⌉

/-- The JS remainder operator `a % b` over real operands (sign follows `a`). -/
noncomputable def jsRem (a b : ℝ) : ℝ := a - b * jsTrunc (a / b)

/-- JS `Math.round`: round half toward positive infinity. -/
noncomputable def jsRound (x : ℝ) : ℤ := ⌊x + 1 / 2⌋

/-! ### GeoMath -/

/-- `normalizeLng` from the source: maps a longitude into the standard range,
with the boundary case `-180` rewritten to `180`. -/
noncomputable def normalizeLng (lng : ℝ) : ℝ :=
  let n := jsRem (jsRem (lng + 180) 360 + 360) 360 - 180
  if n = -180 then 180 else n

/-- `clampLat` from the source: clamp to the WebMercator practical band. -/
noncomputable def clampLat (lat : ℝ) : ℝ :=
  max (min lat 85.05112878) (-85.05112878)

/-- A latitude/longitude pair (the `{lat, lng}` objects of the source). -/
structure GeoPoint where
  lat : ℝ
  lng : ℝ

/-- Degrees to radians, the `toRad` helper of `haversineMeters`. -/
noncomputable def toRad (deg : ℝ) : ℝ := deg * Real.pi / 180

/-- `haversineMeters` from the source. -/
noncomputable def haversineMeters (a b : GeoPoint) : ℝ :=
  let R : ℝ := 6371000
  let dLat := toRad (b.lat - a.lat)
  let dLng := toRad (b.lng - a.lng)
  let lat1 := toRad a.lat
  let lat2 := toRad b.lat
  let sinDLat := Real.sin (dLat / 2)
  let sinDLng := Real.sin (dLng / 2)
  let h := sinDLat * sinDLat + Real.cos lat1 * Real.cos lat2 * sinDLng * sinDLng
  2 * R * Real.arcsin (min 1 (Real.sqrt h))

/-- `lng2tileX` from the source (WebMercator slippy tile scheme). -/
noncomputable def lng2tileX (lng : ℝ) (z : ℕ) : ℤ :=
  ⌊(lng + 180) / 360 * 2 ^ z⌋

/-- `lat2tileY` from the source. -/
noncomputable def lat2tileY (lat : ℝ) (z : ℕ) : ℤ :=
  let latRad := clampLat lat * Real.pi / 180
  ⌊(1 - Real.log (Real.tan latRad + 1 / Real.cos latRad) / Real.pi) / 2 * 2 ^ z⌋

/-- `tileX2lng` from the source. -/
noncomputable def tileX2lng (x : ℤ) (z : ℕ) : ℝ :=
  (x : ℝ) / 2 ^ z * 360 - 180

/-- `tileY2lat` from the source. -/
noncomputable def tileY2lat (y : ℤ) (z : ℕ) : ℝ :=
  Real.arctan (Real.sinh (Real.pi * (1 - 2 * (y : ℝ) / 2 ^ z))) * 180 / Real.pi

/-! ### TileQueryPlanner -/

/-- A Leaflet `LatLngBounds`: the getters `getNorth`/`getSouth`/`getWest`/
`getEast` read these fields, `getCenter` averages the opposite corners. -/
structure LLBounds where
  north : ℝ
  south : ℝ
  west : ℝ
  east : ℝ

/-- Leaflet `L.latLngBounds(corner1, corner2)`: corners are normalized so that
south/west hold the minima and north/east the maxima. -/
noncomputable def latLngBounds (lat1 lng1 lat2 lng2 : ℝ) : LLBounds :=
  ⟨max lat1 lat2, min lat1 lat2, min lng1 lng2, max lng1 lng2⟩

/-- A tile-aligned box in degrees, `{top, bottom, left, right}`. -/
structure TileBox where
  top : ℝ
  bottom : ℝ
  left : ℝ
  right : ℝ

/-- The query plan returned by `buildWazeTileSnappedQuery`. -/
structure QueryPlan where
  requestBoxes : List TileBox
  debugBoxes : List TileBox
  usedZoom : ℝ

/-- One longitudinal span of the viewport (the dateline split produces two). -/
structure LngSpan where
  west : ℝ
  east : ℝ

/-- The cap on individual tiles per request cycle (source constant). -/
def MAX_WAZE_TILE_BOXES_PER_REQUEST : ℕ := 24

/-- The integers `a, a+1, ..., b` (empty when `b < a`), the index range of a
`for` loop from `a` to `b` inclusive. -/
def intRange (a b : ℤ) : List ℤ :=
  (List.range (b + 1 - a).toNat).map (fun i : ℕ => a + (i : ℤ))

/-- The `safeEast` adjustment: avoid `east = 180` mapping one past the last
tile column. -/
noncomputable def spanSafeEast (s : LngSpan) : ℝ :=
  if 180 ≤ s.east then 179.999999 else s.east

/-- The `safeSouth` adjustment: avoid the WebMercator extreme mapping outside
the last tile row. -/
noncomputable def safeSouthOf (south : ℝ) : ℝ :=
  if south ≤ -85.05112878 then -85.05112877 else south

/-- The union box of one span at zoom `zz` (one request per span). -/
noncomputable def spanUnionBox (s : LngSpan) (north south : ℝ) (zz : ℕ) : TileBox :=
  let xMin := lng2tileX s.west zz
  let xMax := lng2tileX (spanSafeEast s) zz
  let yMin := lat2tileY north zz
  let yMax := lat2tileY (safeSouthOf south) zz
  ⟨tileY2lat yMin zz, tileY2lat (yMax + 1) zz, tileX2lng xMin zz, tileX2lng (xMax + 1) zz⟩

/-- The individual tile boxes of one span at zoom `zz` (diagnostic display). -/
noncomputable def spanDebugBoxes (s : LngSpan) (north south : ℝ) (zz : ℕ) : List TileBox :=
  let xMin := lng2tileX s.west zz
  let xMax := lng2tileX (spanSafeEast s) zz
  let yMin := lat2tileY north zz
  let yMax := lat2tileY (safeSouthOf south) zz
  (intRange xMin xMax).flatMap (fun x =>
    (intRange yMin yMax).map (fun y =>
      ⟨tileY2lat y zz, tileY2lat (y + 1) zz, tileX2lng x zz, tileX2lng (x + 1) zz⟩))

/-- The `computeAtZoom` closure of `buildWazeTileSnappedQuery`: request boxes
and debug boxes over all spans at zoom `zz` (its `tileCount` is the length of
the second component). -/
noncomputable def computeAtZoom (spans : List LngSpan) (north south : ℝ) (zz : ℕ) :
    List TileBox × List TileBox :=
  (spans.map (fun s => spanUnionBox s north south zz),
   spans.flatMap (fun s => spanDebugBoxes s north south zz))

/-- The longitudinal spans of a viewport, splitting at the dateline when the
normalized west exceeds the normalized east. -/
noncomputable def wazeSpans (b : LLBounds) : List LngSpan :=
  let west := normalizeLng b.west
  let east := normalizeLng b.east
  if east < west then [⟨west, 180⟩, ⟨-180, east⟩] else [⟨west, east⟩]

/-- The tile count `buildWazeTileSnappedQuery` computes for bounds `b` at
candidate zoom `zz`. -/
noncomputable def wazeTileCountAt (b : LLBounds) (zz : ℕ) : ℕ :=
  (computeAtZoom (wazeSpans b) (clampLat b.north) (clampLat b.south) zz).2.length

/-- The zoom-lowering loop: starting from `z`, decrement while the tile count
exceeds the cap and `z > 0`. -/
def descendZoom (count : ℕ → ℕ) : ℕ → ℕ
  | 0 => 0
  | z + 1 =>
    if MAX_WAZE_TILE_BOXES_PER_REQUEST < count (z + 1) then descendZoom count z
    else z + 1

/-- `buildWazeTileSnappedQuery` from the source. -/
noncomputable def buildWazeTileSnappedQuery (bounds : Option LLBounds) (zoom : ℝ) :
    QueryPlan :=
  match bounds with
  | none => ⟨[], [], zoom⟩
  | some b =>
    let north := clampLat b.north
    let south := clampLat b.south
    let z0 : ℕ := (max 0 (min 22 (jsRound zoom))).toNat
    let z := descendZoom (wazeTileCountAt b) z0
    let c := computeAtZoom (wazeSpans b) north south z
    ⟨c.1, c.2, (z : ℝ)⟩

/-! ### Theorems for the null-bounds branch and longitude normalization -/

/-- C10: with null bounds, `buildWazeTileSnappedQuery` returns empty
`requestBoxes`, empty `debugBoxes`, and `usedZoom` equal to the given zoom
unchanged, for every real zoom value (no clamping or rounding). -/
theorem buildWazeTileSnappedQuery_null_bounds (zoom : ℝ) :
    (buildWazeTileSnappedQuery none zoom).requestBoxes = [] ∧
    (buildWazeTileSnappedQuery none zoom).debugBoxes = [] ∧
    (buildWazeTileSnappedQuery none zoom).usedZoom = zoom :=
  ⟨rfl, rfl, rfl⟩

theorem jsRem_eq_sub (a b : ℝ) : jsRem a b = a - b * jsTrunc (a / b) := rfl

theorem jsRem_nonneg_bounds {a : ℝ} (ha : 0 ≤ a) :
    0 ≤ jsRem a 360 ∧ jsRem a 360 < 360 := by
  have hquot : (0 : ℝ) ≤ a / 360 := by positivity
  have htr : jsTrunc (a / 360) = ⌊a / 360⌋ := if_pos hquot
  constructor
  · have := Int.floor_le (a / 360)
    rw [jsRem_eq_sub, htr]
    nlinarith [this]
  · have := Int.lt_floor_add_one (a / 360)
    rw [jsRem_eq_sub, htr]
    nlinarith [this]

theorem jsRem_neg_bounds {a : ℝ} (ha : a < 0) :
    -360 < jsRem a 360 ∧ jsRem a 360 ≤ 0 := by
  have hquot : ¬ (0 : ℝ) ≤ a / 360 := by
    intro h
    nlinarith [h]
  have htr : jsTrunc (a / 360) = ⌈a / 360⌉ := if_neg hquot
  constructor
  · have := Int.ceil_lt_add_one (a / 360)
    rw [jsRem_eq_sub, htr]
    nlinarith [this]
  · have := Int.le_ceil (a / 360)
    rw [jsRem_eq_sub, htr]
    nlinarith [this]

/-- The double-remainder expression of `normalizeLng` lands in `[0, 360)` and
differs from its argument by an integer multiple of `360`. -/
theorem normalizeLng_core (x : ℝ) :
    ∃ k : ℤ, jsRem (jsRem x 360 + 360) 360 = x - 360 * k ∧
      0 ≤ jsRem (jsRem x 360 + 360) 360 ∧ jsRem (jsRem x 360 + 360) 360 < 360 := by
  have h1 : 0 ≤ jsRem x 360 + 360 := by
    rcases lt_or_le x 0 with hx | hx
    · have := (jsRem_neg_bounds hx).1
      linarith
    · have := (jsRem_nonneg_bounds hx).1
      linarith
  obtain ⟨h2, h3⟩ := jsRem_nonneg_bounds h1
  refine ⟨jsTrunc (x / 360) + jsTrunc ((jsRem x 360 + 360) / 360) - 1, ?_, h2, h3⟩
  rw [jsRem_eq_sub (jsRem x 360 + 360) 360, jsRem_eq_sub x 360]
  push_cast
  ring

/-- C7: `normalizeLng` maps every real longitude into `[-180, 180)`, except
that inputs congruent to the boundary (`180` modulo `360`) map to `180` rather
than `-180`. -/
theorem normalizeLng_range (lng : ℝ) :
    (normalizeLng lng = 180 ∧ ∃ k : ℤ, lng = 180 + 360 * (k : ℝ)) ∨
    (normalizeLng lng ∈ Set.Ico (-180 : ℝ) 180 ∧
      ∀ k : ℤ, lng ≠ 180 + 360 * (k : ℝ)) := by
  obtain ⟨k, hk, h0, h1⟩ := normalizeLng_core (lng + 180)
  set m := jsRem (jsRem (lng + 180) 360 + 360) 360 with hm
  have hnl : normalizeLng lng = if m - 180 = -180 then (180 : ℝ) else m - 180 := rfl
  by_cases hzero : m = 0
  · left
    have hc : m - 180 = -180 := by rw [hzero]; norm_num
    constructor
    · rw [hnl, if_pos hc]
    · refine ⟨k - 1, ?_⟩
      have hx : (0 : ℝ) = lng + 180 - 360 * k := by rw [← hzero, hk]
      push_cast
      linarith
  · right
    have hne : m - 180 ≠ -180 := by
      intro h
      exact hzero (by linarith)
    constructor
    · rw [hnl, if_neg hne]
      exact Set.mem_Ico.mpr ⟨by linarith, by linarith⟩
    · intro j hj
      have hint : m = 360 * (((j + 1 - k) : ℤ) : ℝ) := by
        rw [hk, hj]; push_cast; ring
      have hj0 : (0 : ℝ) ≤ 360 * (((j + 1 - k) : ℤ) : ℝ) := hint ▸ h0
      have hj1 : 360 * (((j + 1 - k) : ℤ) : ℝ) < 360 := hint ▸ h1
      have hr0 : (0 : ℝ) ≤ (((j + 1 - k) : ℤ) : ℝ) := by linarith
      have hr1 : (((j + 1 - k) : ℤ) : ℝ) < 1 := by linarith
      have hkj : (j + 1 - k : ℤ) = 0 := by
        have h0' : (0 : ℤ) ≤ j + 1 - k := by exact_mod_cast hr0
        have h1' : (j + 1 - k : ℤ) < 1 := by exact_mod_cast hr1
        omega
      apply hzero
      rw [hint, hkj]
      simp

/-- `normalizeLng` always lands in `(-180, 180]`. -/
theorem normalizeLng_mem (lng : ℝ) :
    -180 < normalizeLng lng ∧ normalizeLng lng ≤ 180 := by
  rcases normalizeLng_range lng with ⟨h, -⟩ | ⟨h, -⟩
  · rw [h]; norm_num
  · obtain ⟨h1, h2⟩ := Set.mem_Ico.mp h
    constructor
    · rcases eq_or_lt_of_le h1 with heq | hlt
      · exfalso
        obtain ⟨k, hk, h0, hlt360⟩ := normalizeLng_core (lng + 180)
        set m := jsRem (jsRem (lng + 180) 360 + 360) 360 with hm
        have hnl : normalizeLng lng = if m - 180 = -180 then (180 : ℝ) else m - 180 := rfl
        by_cases hc : m - 180 = -180
        · rw [hnl, if_pos hc] at heq
          norm_num at heq
        · rw [hnl, if_neg hc] at heq
          exact hc heq.symm
      · exact hlt
    · linarith

/-! ### The tile count at zoom 0 is tiny

At zoom 0 there is one tile column for the whole longitude range, and the
Mercator y-value of any clamped latitude lies strictly between `-1` and `2`,
so each span contributes at most `1 × 3` debug tiles. -/

theorem clampLat_abs (lat : ℝ) : |clampLat lat| ≤ 85.05112878 := by
  have h1 : clampLat lat ≤ 85.05112878 := max_le (min_le_right _ _) (by norm_num)
  have h2 : -85.05112878 ≤ clampLat lat := le_max_right _ _
  rw [abs_le]
  exact ⟨h2, h1⟩

theorem latRad_abs_le (lat : ℝ) : |clampLat lat * Real.pi / 180| ≤ 1.4845 := by
  have hpi' : Real.pi < 3.141593 := Real.pi_lt_d6
  have hpos : (0 : ℝ) < Real.pi := Real.pi_pos
  have habs := clampLat_abs lat
  have heq : |clampLat lat * Real.pi / 180| = |clampLat lat| * Real.pi / 180 := by
    rw [abs_div, abs_mul, abs_of_pos hpos]
    norm_num
  rw [heq]
  have h1 : |clampLat lat| * Real.pi ≤ 85.05112878 * 3.141593 :=
    mul_le_mul habs (le_of_lt hpi') (le_of_lt hpos) (by norm_num)
  have h2 : (85.05112878 : ℝ) * 3.141593 / 180 ≤ 1.4845 := by norm_num
  linarith

theorem cos_lower_bound {φ : ℝ} (hφ : |φ| ≤ 1.4845) : 0.086 ≤ Real.cos φ := by
  have hpi6 : 3.141592 < Real.pi := Real.pi_gt_d6
  have h1 : Real.cos 1.4845 ≤ Real.cos |φ| :=
    Real.cos_le_cos_of_nonneg_of_le_pi (abs_nonneg φ) (by linarith) hφ
  rw [Real.cos_abs] at h1
  have h2 : Real.sin (Real.pi / 2 - 1.4845) = Real.cos 1.4845 :=
    Real.sin_pi_div_two_sub 1.4845
  have h3 : Real.sin 0.0862 ≤ Real.sin (Real.pi / 2 - 1.4845) := by
    apply Real.strictMonoOn_sin.monotoneOn
    · exact Set.mem_Icc.mpr ⟨by linarith, by linarith⟩
    · exact Set.mem_Icc.mpr ⟨by linarith, by linarith⟩
    · linarith
  have h4 : (0.0862 : ℝ) - 0.0862 ^ 3 / 4 < Real.sin 0.0862 :=
    Real.sin_gt_sub_cube (by norm_num) (by norm_num)
  have h5 : (0.086 : ℝ) ≤ 0.0862 - 0.0862 ^ 3 / 4 := by norm_num
  linarith

theorem one_add_sin_lower_bound {φ : ℝ} (hφ : |φ| ≤ 1.4845) :
    0.0037 ≤ 1 + Real.sin φ := by
  have hpi6 : 3.141592 < Real.pi := Real.pi_gt_d6
  have hpi6' : Real.pi < 3.141593 := Real.pi_lt_d6
  have habs : -Real.sin |φ| ≤ Real.sin φ := by
    rcases le_or_lt 0 φ with h | h
    · rw [abs_of_nonneg h]
      have hle : φ ≤ Real.pi := by
        calc φ ≤ |φ| := le_abs_self φ
          _ ≤ 1.4845 := hφ
          _ ≤ Real.pi := by linarith
      have := Real.sin_nonneg_of_nonneg_of_le_pi h hle
      linarith
    · rw [abs_of_neg h, Real.sin_neg, neg_neg]
  have hmono : Real.sin |φ| ≤ Real.sin 1.4845 := by
    apply Real.strictMonoOn_sin.monotoneOn
    · exact Set.mem_Icc.mpr ⟨by linarith [abs_nonneg φ], by linarith⟩
    · exact Set.mem_Icc.mpr ⟨by linarith, by linarith⟩
    · exact hφ
  have hc0 : Real.cos (Real.pi / 2 - 1.4845) = Real.sin 1.4845 :=
    Real.cos_pi_div_two_sub 1.4845
  have hc1 : Real.cos (Real.pi / 2 - 1.4845) ≤ Real.cos 0.0862 :=
    Real.cos_le_cos_of_nonneg_of_le_pi (by norm_num) (by linarith) (by linarith)
  have habs62 : |(0.0862 : ℝ)| = 0.0862 := abs_of_pos (by norm_num)
  have hc2 := @Real.cos_bound 0.0862 (by rw [habs62]; norm_num)
  rw [habs62] at hc2
  have hc3 : Real.cos 0.0862 - (1 - 0.0862 ^ 2 / 2) ≤ 0.0862 ^ 4 * (5 / 96) :=
    (abs_le.mp hc2).2
  have hnum : (1 : ℝ) - 0.0862 ^ 2 / 2 + 0.0862 ^ 4 * (5 / 96) ≤ 0.9963 := by norm_num
  linarith

theorem sec_sum_bounds {φ : ℝ} (hφ : |φ| ≤ 1.4845) :
    0.0037 ≤ Real.tan φ + 1 / Real.cos φ ∧ Real.tan φ + 1 / Real.cos φ ≤ 24 := by
  have hcos := cos_lower_bound hφ
  have hcos0 : (0 : ℝ) < Real.cos φ := lt_of_lt_of_le (by norm_num) hcos
  have ht : Real.tan φ + 1 / Real.cos φ = (Real.sin φ + 1) / Real.cos φ := by
    rw [Real.tan_eq_sin_div_cos, div_add_div_same]
  have hsin1 : Real.sin φ ≤ 1 := Real.sin_le_one φ
  have hsin0 : (0 : ℝ) ≤ Real.sin φ + 1 := by linarith [Real.neg_one_le_sin φ]
  constructor
  · rw [ht]
    have h1 := one_add_sin_lower_bound hφ
    have h2 : Real.sin φ + 1 ≤ (Real.sin φ + 1) / Real.cos φ := by
      rw [le_div_iff hcos0]
      exact mul_le_of_le_one_right hsin0 (Real.cos_le_one φ)
    linarith
  · rw [ht, div_le_iff hcos0]
    linarith

theorem exp_nine_big : (271 : ℝ) < Real.exp 9 := by
  have h1 : (2.7182818 : ℝ) < Real.exp 1 := by
    have := Real.exp_one_gt_d9
    linarith
  have h2 : Real.exp 9 = Real.exp 1 ^ 9 := by
    rw [← Real.exp_nat_mul]
    norm_num
  rw [h2]
  calc (271 : ℝ) < 2.7182818 ^ 9 := by norm_num
    _ ≤ Real.exp 1 ^ 9 := pow_le_pow_left (by norm_num) (le_of_lt h1) 9

theorem merc_log_bounds {φ : ℝ} (hφ : |φ| ≤ 1.4845) :
    -(3 * Real.pi) < Real.log (Real.tan φ + 1 / Real.cos φ) ∧
    Real.log (Real.tan φ + 1 / Real.cos φ) < 3 * Real.pi := by
  obtain ⟨hlo, hhi⟩ := sec_sum_bounds hφ
  have ht0 : (0 : ℝ) < Real.tan φ + 1 / Real.cos φ := lt_of_lt_of_le (by norm_num) hlo
  have hexp9 := exp_nine_big
  have h9pi : (9 : ℝ) ≤ 3 * Real.pi := by nlinarith [Real.pi_gt_d6]
  constructor
  · rw [Real.lt_log_iff_exp_lt ht0]
    have hmono : Real.exp (-(3 * Real.pi)) ≤ Real.exp (-9) :=
      Real.exp_le_exp.mpr (by linarith)
    have he : Real.exp (-9 : ℝ) = (Real.exp 9)⁻¹ := by
      rw [← Real.exp_neg]
    have hinv : (Real.exp 9)⁻¹ < (271 : ℝ)⁻¹ :=
      inv_lt_inv_of_lt (by norm_num) hexp9
    have : ((271 : ℝ))⁻¹ < 0.0037 := by norm_num
    linarith
  · rw [Real.log_lt_iff_lt_exp ht0]
    have hmono : Real.exp 9 ≤ Real.exp (3 * Real.pi) := Real.exp_le_exp.mpr h9pi
    linarith

theorem lat2tileY_zero_bounds (lat : ℝ) :
    -1 ≤ lat2tileY lat 0 ∧ lat2tileY lat 0 ≤ 1 := by
  have hφ := latRad_abs_le lat
  obtain ⟨hlo, hhi⟩ := merc_log_bounds hφ
  have hpi : (0 : ℝ) < Real.pi := Real.pi_pos
  set L := Real.log (Real.tan (clampLat lat * Real.pi / 180) +
    1 / Real.cos (clampLat lat * Real.pi / 180)) with hL
  have hm : lat2tileY lat 0 = ⌊(1 - L / Real.pi) / 2 * 2 ^ (0 : ℕ)⌋ := rfl
  have hdiv_hi : L / Real.pi < 3 := by
    rw [div_lt_iff hpi]
    linarith
  have hdiv_lo : -3 < L / Real.pi := by
    rw [neg_lt, ← neg_div, div_lt_iff hpi]
    linarith
  constructor
  · rw [hm, pow_zero, mul_one]
    exact Int.le_floor.mpr (by push_cast; linarith)
  · rw [hm, pow_zero, mul_one]
    have h2 : ⌊(1 - L / Real.pi) / 2⌋ < 2 :=
      Int.floor_lt.mpr (by push_cast; linarith)
    omega

theorem lng2tileX_zero_eq_zero {lng : ℝ} (h1 : -180 ≤ lng) (h2 : lng < 180) :
    lng2tileX lng 0 = 0 := by
  unfold lng2tileX
  rw [pow_zero, mul_one]
  apply Int.floor_eq_zero_iff.mpr
  rw [Set.mem_Ico]
  constructor
  · apply div_nonneg (by linarith) (by norm_num)
  · rw [div_lt_one (by norm_num)]
    linarith

theorem lng2tileX_zero_nonneg {lng : ℝ} (h1 : -180 ≤ lng) : 0 ≤ lng2tileX lng 0 := by
  unfold lng2tileX
  rw [pow_zero, mul_one]
  exact Int.floor_nonneg.mpr (div_nonneg (by linarith) (by norm_num))

theorem intRange_length (a b : ℤ) : (intRange a b).length = (b + 1 - a).toNat := by
  simp [intRange]

theorem spanDebugBoxes_zero_length_le (s : LngSpan) (north south : ℝ)
    (hw1 : -180 ≤ s.west) (he1 : -180 < s.east) (he2 : s.east ≤ 180) :
    (spanDebugBoxes s north south 0).length ≤ 3 := by
  have hse1 : -180 ≤ spanSafeEast s := by
    unfold spanSafeEast
    split
    · norm_num
    · linarith
  have hse2 : spanSafeEast s < 180 := by
    unfold spanSafeEast
    split
    · norm_num
    · linarith [not_le.mp (by assumption)]
  have hxMax : lng2tileX (spanSafeEast s) 0 = 0 := lng2tileX_zero_eq_zero hse1 hse2
  have hxMin : 0 ≤ lng2tileX s.west 0 := lng2tileX_zero_nonneg hw1
  obtain ⟨hy1, hy2⟩ := lat2tileY_zero_bounds north
  obtain ⟨hy3, hy4⟩ := lat2tileY_zero_bounds (safeSouthOf south)
  have hlen : (spanDebugBoxes s north south 0).length =
      (intRange (lng2tileX s.west 0) (lng2tileX (spanSafeEast s) 0)).length *
      (intRange (lat2tileY north 0) (lat2tileY (safeSouthOf south) 0)).length := by
    unfold spanDebugBoxes
    rw [List.length_flatMap]
    have hmap : List.map
        (List.length ∘ fun x => (intRange (lat2tileY north 0)
          (lat2tileY (safeSouthOf south) 0)).map (fun y =>
            TileBox.mk (tileY2lat y 0) (tileY2lat (y + 1) 0) (tileX2lng x 0) (tileX2lng (x + 1) 0)))
        (intRange (lng2tileX s.west 0) (lng2tileX (spanSafeEast s) 0)) =
        List.map (fun _ => (intRange (lat2tileY north 0)
          (lat2tileY (safeSouthOf south) 0)).length)
        (intRange (lng2tileX s.west 0) (lng2tileX (spanSafeEast s) 0)) := by
      apply List.map_congr_left
      intro x _
      simp [List.length_map]
    rw [hmap, List.map_const', List.sum_replicate, smul_eq_mul, Nat.mul_comm]
  rw [hlen, intRange_length, intRange_length, hxMax]
  have ha : (0 + 1 - lng2tileX s.west 0).toNat ≤ 1 := by
    omega
  have hb : (lat2tileY (safeSouthOf south) 0 + 1 - lat2tileY north 0).toNat ≤ 3 := by
    omega
  calc (0 + 1 - lng2tileX s.west 0).toNat *
      (lat2tileY (safeSouthOf south) 0 + 1 - lat2tileY north 0).toNat ≤ 1 * 3 :=
        Nat.mul_le_mul ha hb
    _ ≤ 3 := by norm_num

theorem wazeTileCountAt_zero_le (b : LLBounds) :
    wazeTileCountAt b 0 ≤ MAX_WAZE_TILE_BOXES_PER_REQUEST := by
  have hw := normalizeLng_mem b.west
  have he := normalizeLng_mem b.east
  have hcount : wazeTileCountAt b 0 = ((wazeSpans b).flatMap
      (fun s => spanDebugBoxes s (clampLat b.north) (clampLat b.south) 0)).length := rfl
  have hsp : wazeSpans b = if normalizeLng b.east < normalizeLng b.west then
      ([⟨normalizeLng b.west, 180⟩, ⟨-180, normalizeLng b.east⟩] : List LngSpan)
      else [⟨normalizeLng b.west, normalizeLng b.east⟩] := rfl
  rw [hcount, hsp]
  split_ifs with hlt
  · rw [List.flatMap_cons, List.flatMap_cons, List.flatMap_nil, List.append_nil,
      List.length_append]
    have h1 := spanDebugBoxes_zero_length_le ⟨normalizeLng b.west, 180⟩
      (clampLat b.north) (clampLat b.south) (by linarith [hw.1]) (by norm_num) (by norm_num)
    have h2 := spanDebugBoxes_zero_length_le ⟨-180, normalizeLng b.east⟩
      (clampLat b.north) (clampLat b.south) (by norm_num) (by linarith [he.1]) he.2
    unfold MAX_WAZE_TILE_BOXES_PER_REQUEST
    omega
  · rw [List.flatMap_cons, List.flatMap_nil, List.append_nil]
    have h1 := spanDebugBoxes_zero_length_le ⟨normalizeLng b.west, normalizeLng b.east⟩
      (clampLat b.north) (clampLat b.south) (by linarith [hw.1]) (by linarith [he.1]) he.2
    unfold MAX_WAZE_TILE_BOXES_PER_REQUEST
    omega

/-! ### The zoom-lowering loop -/

theorem descendZoom_le (count : ℕ → ℕ) (z : ℕ) : descendZoom count z ≤ z := by
  induction z with
  | zero => exact le_refl 0
  | succ n ih =>
    unfold descendZoom
    split
    · exact le_trans ih (Nat.le_succ n)
    · exact le_refl _

theorem descendZoom_count_le (count : ℕ → ℕ)
    (h0 : count 0 ≤ MAX_WAZE_TILE_BOXES_PER_REQUEST) (z : ℕ) :
    count (descendZoom count z) ≤ MAX_WAZE_TILE_BOXES_PER_REQUEST := by
  induction z with
  | zero => exact h0
  | succ n ih =>
    unfold descendZoom
    split
    · exact ih
    · omega

theorem descendZoom_maximal (count : ℕ → ℕ) (z w : ℕ) (hw : w ≤ z)
    (hc : count w ≤ MAX_WAZE_TILE_BOXES_PER_REQUEST) : w ≤ descendZoom count z := by
  induction z with
  | zero => exact hw
  | succ n ih =>
    unfold descendZoom
    split
    · have hne : w ≠ n + 1 := by
        intro h
        subst h
        omega
      exact ih (by omega)
    · exact hw

/-- C1: for every non-null viewport bounds and every zoom, the plan's debug
tile count is at most 24, and `usedZoom` is the greatest zoom `z` between `0`
and the clamped rounded requested zoom whose tile count is at most 24 (the
count at zoom 0 never exceeds 24, so such a zoom always exists). -/
theorem waze_tile_query_cap_and_used_zoom (b : LLBounds) (zoom : ℝ) :
    (buildWazeTileSnappedQuery (some b) zoom).debugBoxes.length ≤ 24 ∧
    ∃ z : ℕ, (buildWazeTileSnappedQuery (some b) zoom).usedZoom = (z : ℝ) ∧
      z ≤ (max 0 (min 22 (jsRound zoom))).toNat ∧
      wazeTileCountAt b z ≤ 24 ∧
      ∀ w : ℕ, w ≤ (max 0 (min 22 (jsRound zoom))).toNat →
        wazeTileCountAt b w ≤ 24 → w ≤ z := by
  have h0 := wazeTileCountAt_zero_le b
  have hcz : wazeTileCountAt b (descendZoom (wazeTileCountAt b)
      (max 0 (min 22 (jsRound zoom))).toNat) ≤ MAX_WAZE_TILE_BOXES_PER_REQUEST :=
    descendZoom_count_le _ h0 _
  refine ⟨hcz, descendZoom (wazeTileCountAt b) (max 0 (min 22 (jsRound zoom))).toNat,
    rfl, descendZoom_le _ _, hcz, fun w hw hc => descendZoom_maximal _ _ _ hw hc⟩

/-! ### PointClusterer

The greedy single-linkage clustering shared by `clusterPoliceAlerts` and
`clusterPoints`.  `remaining.pop()` removes the last element; the inner
`for` loop walks the remaining array from its last index down to `0`, so one
absorption pass is modelled by a recursion over the reversed remaining list,
re-assembling the kept elements in their original order. -/

/-- One absorption pass of the inner `while (changed)` loop.  `stack` is the
not-yet-visited part of the remaining array in reverse order; `kept` collects
the elements already visited and not absorbed, in original order. -/
noncomputable def absorbOncePass {α : Type*} (near : α → α → Prop) :
    List α → List α → List α → Bool → List α × List α × Bool
  | cluster, kept, [], changed => (cluster, kept, changed)
  | cluster, kept, c :: stack, changed =>
    if ∃ p ∈ cluster, near p c then
      absorbOncePass near (cluster ++ [c]) kept stack true
    else
      absorbOncePass near cluster (c :: kept) stack changed

theorem absorbOncePass_perm {α : Type*} (near : α → α → Prop) (stack : List α) :
    ∀ (cluster kept : List α) (ch : Bool),
      ((absorbOncePass near cluster kept stack ch).1 ++
        (absorbOncePass near cluster kept stack ch).2.1).Perm
        (cluster ++ (kept ++ stack)) := by
  induction stack with
  | nil =>
    intro cluster kept ch
    simp [absorbOncePass]
  | cons c rest ih =>
    intro cluster kept ch
    by_cases h : ∃ p ∈ cluster, near p c
    · have heq : absorbOncePass near cluster kept (c :: rest) ch =
          absorbOncePass near (cluster ++ [c]) kept rest true := by
        simp only [absorbOncePass, if_pos h]
      rw [heq]
      refine (ih (cluster ++ [c]) kept true).trans ?_
      rw [List.append_assoc]
      apply List.Perm.append_left
      have hid : [c] ++ (kept ++ rest) = c :: (kept ++ rest) := rfl
      rw [hid]
      exact List.perm_middle.symm
    · have heq : absorbOncePass near cluster kept (c :: rest) ch =
          absorbOncePass near cluster (c :: kept) rest ch := by
        simp only [absorbOncePass, if_neg h]
      rw [heq]
      refine (ih cluster (c :: kept) ch).trans ?_
      apply List.Perm.append_left
      rw [List.cons_append]
      exact List.perm_middle.symm

theorem absorbOncePass_cluster_le {α : Type*} (near : α → α → Prop) (stack : List α) :
    ∀ (cluster kept : List α) (ch : Bool),
      cluster.length ≤ (absorbOncePass near cluster kept stack ch).1.length := by
  induction stack with
  | nil =>
    intro cluster kept ch
    simp [absorbOncePass]
  | cons c rest ih =>
    intro cluster kept ch
    by_cases h : ∃ p ∈ cluster, near p c
    · have heq : absorbOncePass near cluster kept (c :: rest) ch =
          absorbOncePass near (cluster ++ [c]) kept rest true := by
        simp only [absorbOncePass, if_pos h]
      rw [heq]
      have := ih (cluster ++ [c]) kept true
      simp only [List.length_append, List.length_singleton] at this
      omega
    · have heq : absorbOncePass near cluster kept (c :: rest) ch =
          absorbOncePass near cluster (c :: kept) rest ch := by
        simp only [absorbOncePass, if_neg h]
      rw [heq]
      exact ih cluster (c :: kept) ch

theorem absorbOncePass_changed {α : Type*} (near : α → α → Prop) (stack : List α) :
    ∀ (cluster kept : List α) (ch : Bool),
      (absorbOncePass near cluster kept stack ch).2.2 = true →
      ch = true ∨ cluster.length < (absorbOncePass near cluster kept stack ch).1.length := by
  induction stack with
  | nil =>
    intro cluster kept ch h
    simp only [absorbOncePass] at h
    exact Or.inl h
  | cons c rest ih =>
    intro cluster kept ch h
    by_cases hc : ∃ p ∈ cluster, near p c
    · have heq : absorbOncePass near cluster kept (c :: rest) ch =
          absorbOncePass near (cluster ++ [c]) kept rest true := by
        simp only [absorbOncePass, if_pos hc]
      rw [heq] at h ⊢
      right
      have := absorbOncePass_cluster_le near rest (cluster ++ [c]) kept true
      simp only [List.length_append, List.length_singleton] at this
      omega
    · have heq : absorbOncePass near cluster kept (c :: rest) ch =
          absorbOncePass near cluster (c :: kept) rest ch := by
        simp only [absorbOncePass, if_neg hc]
      rw [heq] at h ⊢
      exact ih cluster (c :: kept) ch h

/-- The inner `while (changed)` loop: run absorption passes until one of them
absorbs nothing. -/
noncomputable def absorbLoop {α : Type*} (near : α → α → Prop)
    (cluster remaining : List α) : List α × List α :=
  if h : (absorbOncePass near cluster [] remaining.reverse false).2.2 = true then
    absorbLoop near (absorbOncePass near cluster [] remaining.reverse false).1
      (absorbOncePass near cluster [] remaining.reverse false).2.1
  else
    ((absorbOncePass near cluster [] remaining.reverse false).1,
      (absorbOncePass near cluster [] remaining.reverse false).2.1)
termination_by remaining.length
decreasing_by
  have hperm := absorbOncePass_perm near remaining.reverse cluster [] false
  have hch := absorbOncePass_changed near remaining.reverse cluster [] false h
  have hlen := hperm.length_eq
  simp only [List.length_append, List.length_reverse, List.nil_append,
    List.length_nil] at hlen
  rcases hch with hfalse | hlt
  · exact absurd hfalse (by simp)
  · omega

theorem absorbLoop_perm_aux {α : Type*} (near : α → α → Prop) (n : ℕ) :
    ∀ (cluster remaining : List α), remaining.length ≤ n →
      ((absorbLoop near cluster remaining).1 ++
        (absorbLoop near cluster remaining).2).Perm (cluster ++ remaining) ∧
      cluster.length ≤ (absorbLoop near cluster remaining).1.length := by
  induction n with
  | zero =>
    intro cluster remaining hn
    have hrem : remaining = [] := List.length_eq_zero.mp (Nat.le_zero.mp hn)
    subst hrem
    rw [absorbLoop]
    simp [absorbOncePass]
  | succ n ih =>
    intro cluster remaining hn
    rw [absorbLoop]
    have hperm := absorbOncePass_perm near remaining.reverse cluster [] false
    have hcl := absorbOncePass_cluster_le near remaining.reverse cluster [] false
    have hlen := hperm.length_eq
    simp only [List.length_append, List.length_reverse, List.nil_append,
      List.length_nil] at hlen
    have htail : ((absorbOncePass near cluster [] remaining.reverse false).1 ++
        (absorbOncePass near cluster [] remaining.reverse false).2.1).Perm
        (cluster ++ remaining) := by
      refine hperm.trans ?_
      simp only [List.nil_append]
      exact List.Perm.append_left cluster (List.reverse_perm remaining)
    by_cases h : (absorbOncePass near cluster [] remaining.reverse false).2.2 = true
    · rw [dif_pos h]
      have hch := absorbOncePass_changed near remaining.reverse cluster [] false h
      rcases hch with hfalse | hlt
      · exact absurd hfalse (by simp)
      · have hle : (absorbOncePass near cluster [] remaining.reverse false).2.1.length ≤ n := by
          omega
        obtain ⟨hp, hc⟩ := ih (absorbOncePass near cluster [] remaining.reverse false).1
          (absorbOncePass near cluster [] remaining.reverse false).2.1 hle
        exact ⟨hp.trans htail, by omega⟩
    · rw [dif_neg h]
      exact ⟨htail, hcl⟩

theorem absorbLoop_perm {α : Type*} (near : α → α → Prop) (cluster remaining : List α) :
    ((absorbLoop near cluster remaining).1 ++
      (absorbLoop near cluster remaining).2).Perm (cluster ++ remaining) :=
  (absorbLoop_perm_aux near remaining.length cluster remaining le_rfl).1

theorem absorbLoop_cluster_le {α : Type*} (near : α → α → Prop)
    (cluster remaining : List α) :
    cluster.length ≤ (absorbLoop near cluster remaining).1.length :=
  (absorbLoop_perm_aux near remaining.length cluster remaining le_rfl).2

/-- The outer `while (remaining.length)` loop: pop the last remaining point as
a seed, absorb transitively, emit the member list, repeat.  Returns the member
lists of the clusters in construction order. -/
noncomputable def clusterCore {α : Type*} (near : α → α → Prop)
    (remaining : List α) : List (List α) :=
  if h : remaining = [] then []
  else
    (absorbLoop near [remaining.getLast h] remaining.dropLast).1 ::
      clusterCore near (absorbLoop near [remaining.getLast h] remaining.dropLast).2
termination_by remaining.length
decreasing_by
  have hperm := absorbLoop_perm near [remaining.getLast h] remaining.dropLast
  have hcl := absorbLoop_cluster_le near [remaining.getLast h] remaining.dropLast
  have hlen := hperm.length_eq
  have hpos : 0 < remaining.length := List.length_pos.mpr h
  simp only [List.length_append, List.length_singleton, List.length_dropLast] at hlen
  simp only [List.length_singleton] at hcl
  omega

theorem clusterCore_perm {α : Type*} (near : α → α → Prop) (n : ℕ) :
    ∀ remaining : List α, remaining.length ≤ n →
      (clusterCore near remaining).flatten.Perm remaining := by
  induction n with
  | zero =>
    intro remaining hn
    have hrem : remaining = [] := List.length_eq_zero.mp (Nat.le_zero.mp hn)
    subst hrem
    rw [clusterCore]
    simp
  | succ n ih =>
    intro remaining hn
    by_cases h : remaining = []
    · subst h
      rw [clusterCore]
      simp
    · rw [clusterCore, dif_neg h]
      have hperm := absorbLoop_perm near [remaining.getLast h] remaining.dropLast
      have hcl := absorbLoop_cluster_le near [remaining.getLast h] remaining.dropLast
      have hlen := hperm.length_eq
      have hpos : 0 < remaining.length := List.length_pos.mpr h
      simp only [List.length_append, List.length_singleton, List.length_dropLast] at hlen
      simp only [List.length_singleton] at hcl
      have hrec := ih (absorbLoop near [remaining.getLast h] remaining.dropLast).2 (by omega)
      rw [List.flatten_cons]
      refine (List.Perm.append_left _ hrec).trans ?_
      refine hperm.trans ?_
      have hsplit : [remaining.getLast h] ++ remaining.dropLast =
          remaining.getLast h :: remaining.dropLast := rfl
      rw [hsplit]
      conv_rhs => rw [← List.dropLast_append_getLast h]
      have hpm := (@List.perm_middle _ (remaining.getLast h)
        remaining.dropLast ([] : List α)).symm
      simpa using hpm

theorem clusterCore_flatten_perm {α : Type*} (near : α → α → Prop)
    (remaining : List α) :
    (clusterCore near remaining).flatten.Perm remaining :=
  clusterCore_perm near remaining.length remaining le_rfl

theorem clusterCore_nonempty {α : Type*} (near : α → α → Prop) (n : ℕ) :
    ∀ remaining : List α, remaining.length ≤ n →
      ∀ c ∈ clusterCore near remaining, c ≠ [] := by
  induction n with
  | zero =>
    intro remaining hn c hc
    have hrem : remaining = [] := List.length_eq_zero.mp (Nat.le_zero.mp hn)
    subst hrem
    rw [clusterCore] at hc
    simp at hc
  | succ n ih =>
    intro remaining hn c hc
    by_cases h : remaining = []
    · subst h
      rw [clusterCore] at hc
      simp at hc
    · rw [clusterCore, dif_neg h] at hc
      have hperm := absorbLoop_perm near [remaining.getLast h] remaining.dropLast
      have hcl := absorbLoop_cluster_le near [remaining.getLast h] remaining.dropLast
      have hlen := hperm.length_eq
      have hpos : 0 < remaining.length := List.length_pos.mpr h
      simp only [List.length_append, List.length_singleton, List.length_dropLast] at hlen
      simp only [List.length_singleton] at hcl
      rcases List.mem_cons.mp hc with hfst | hrest
      · subst hfst
        intro hnil
        rw [hnil] at hcl
        simp at hcl
      · exact ih (absorbLoop near [remaining.getLast h] remaining.dropLast).2
          (by omega) c hrest

theorem clusterCore_members_nonempty {α : Type*} (near : α → α → Prop)
    (remaining : List α) :
    ∀ c ∈ clusterCore near remaining, c ≠ [] :=
  clusterCore_nonempty near remaining.length remaining le_rfl

/-! ### Alerts and radar points -/

/-- A static speed-radar point as parsed from the CSV dataset. -/
structure RadarPoint where
  id : String
  lat : ℝ
  lng : ℝ
  desc : String

/-- The identity key of a published alert.  In JS the key is a string
(`uuid`, or `id`, or the interpolation of type, coordinates and timestamp);
here the three sources are kept as constructors, the interpolations being
injective on the alert data that reaches them. -/
inductive AlertKey where
  | fromUuid (u : String)
  | fromId (i : String)
  | composite (type : String) (lng lat : ℝ) (pub : Option ℤ)

/-- Truthiness of the JS string underlying a key: only an empty `uuid` or
`id` string is falsy, the composite interpolation is never empty. -/
def AlertKey.truthy : AlertKey → Prop
  | .fromUuid u => u ≠ ""
  | .fromId i => i ≠ ""
  | .composite _ _ _ _ => True

/-- A raw alert object from a feed response.  `Option` fields model absent
(or non-string / non-number) JS values; `locX`/`locY` are the `location.x`
and `location.y` fields when they are numbers. -/
structure RawAlert where
  uuid : Option String
  id : Option String
  type : Option String
  subtype : Option String
  street : Option String
  city : Option String
  pubMillis : Option ℤ
  locX : Option ℝ
  locY : Option ℝ

/-- JS `s || fallback` on an optional string: the empty string is falsy. -/
def jsStr (s : Option String) : Option String :=
  match s with
  | some v => if v = "" then none else some v
  | none => none

/-- JS `n || fallback` on an optional integer: `0` is falsy. -/
def jsInt (o : Option ℤ) : Option ℤ :=
  match o with
  | some v => if v = 0 then none else some v
  | none => none

/-- Whether `pat` is a prefix of `l` (JS `String.prototype.startsWith`). -/
def charListStartsWith : List Char → List Char → Bool
  | [], _ => true
  | _ :: _, [] => false
  | p :: ps, c :: cs => p == c && charListStartsWith ps cs

/-- Whether `pat` occurs inside `l` (JS `String.prototype.includes`). -/
def charListHasSub (pat : List Char) : List Char → Bool
  | [] => charListStartsWith pat []
  | c :: cs => charListStartsWith pat (c :: cs) || charListHasSub pat cs

/-- JS `s.includes(pat)`. -/
def strIncludes (s pat : String) : Bool := charListHasSub pat.data s.data

/-- JS `s.toLowerCase()` (ASCII case folding, character by character). -/
def strToLower (s : String) : String := ⟨s.data.map Char.toLower⟩

/-- `isPoliceAlert` from the source. -/
def isPoliceAlert (a : RawAlert) : Bool :=
  strIncludes (strToLower ((jsStr a.type).getD "")) "police" ||
  strIncludes (strToLower ((jsStr a.subtype).getD "")) "police"

/-- A published alert (the mapped shape of the police pipeline). -/
structure Alert where
  id : AlertKey
  uuid : Option String
  type : String
  subtype : String
  street : String
  city : String
  pubMillis : Option ℤ
  location : GeoPoint
  raw : RawAlert

/-- The map step of the police pipeline: `null` (here `none`) for alerts whose
location coordinates are not both numbers, otherwise the `Alert` shape with
the identity key `uuid || id || composite`. -/
noncomputable def toAlert (a : RawAlert) : Option Alert :=
  match a.locY, a.locX with
  | some lat, some lng =>
    let key := match jsStr a.uuid with
      | some u => AlertKey.fromUuid u
      | none => match jsStr a.id with
        | some i => AlertKey.fromId i
        | none => AlertKey.composite ((jsStr a.type).getD "unknown") lng lat (jsInt a.pubMillis)
    some { id := key,
           uuid := jsStr a.uuid,
           type := (jsStr a.type).getD "",
           subtype := (jsStr a.subtype).getD "",
           street := (jsStr a.street).getD "",
           city := (jsStr a.city).getD "",
           pubMillis := jsInt a.pubMillis,
           location := ⟨lat, lng⟩,
           raw := a }
  | _, _ => none

/-- A rendered cluster: `{id, center, count, items, primary}`.  The JS id is
`primary?.id` or, when that is falsy, the interpolation of center and size
(kept as the right summand). -/
structure Cluster (κ : Type) (α : Type) where
  id : κ ⊕ (ℝ × ℝ × ℕ)
  center : GeoPoint
  count : ℕ
  items : List α
  primary : Option α

/-- Build the cluster record of `clusterPoints` from a member list. -/
noncomputable def mkPointCluster (cl : List RadarPoint) : Cluster String RadarPoint :=
  let center : GeoPoint :=
    ⟨(cl.map RadarPoint.lat).sum / cl.length, (cl.map RadarPoint.lng).sum / cl.length⟩
  let primary := cl.head?
  { id := match primary with
      | some p => if p.id = "" then Sum.inr (center.lat, center.lng, cl.length) else Sum.inl p.id
      | none => Sum.inr (center.lat, center.lng, cl.length),
    center := center,
    count := cl.length,
    items := cl,
    primary := primary }

/-- `clusterPoints` from the source: greedy single-linkage clustering of
`{lat, lng}` points, primary is the first member (the seed). -/
noncomputable def clusterPoints (points : List RadarPoint) (radiusMeters : ℝ) :
    List (Cluster String RadarPoint) :=
  (clusterCore (fun p c => haversineMeters ⟨p.lat, p.lng⟩ ⟨c.lat, c.lng⟩ ≤ radiusMeters)
    points).map mkPointCluster

/-- The `reduce` that picks the cluster member with the latest `pubMillis`
(ties go to the later element), starting from the first member. -/
noncomputable def policePrimary (cl : List Alert) : Option Alert :=
  match cl.head? with
  | none => none
  | some h => some (cl.foldl (fun best cur =>
      if best.pubMillis.getD 0 ≤ cur.pubMillis.getD 0 then cur else best) h)

/-- Build the cluster record of `clusterPoliceAlerts` from a member list. -/
noncomputable def mkPoliceCluster (cl : List Alert) : Cluster AlertKey Alert :=
  let center : GeoPoint :=
    ⟨(cl.map (fun a => a.location.lat)).sum / cl.length,
     (cl.map (fun a => a.location.lng)).sum / cl.length⟩
  let primary := policePrimary cl
  { id := match primary with
      | some p => if p.id.truthy then Sum.inl p.id
                  else Sum.inr (center.lat, center.lng, cl.length)
      | none => Sum.inr (center.lat, center.lng, cl.length),
    center := center,
    count := cl.length,
    items := cl,
    primary := primary }

/-- `clusterPoliceAlerts` from the source: the same greedy clustering over the
alerts' locations, primary is the member with the latest timestamp. -/
noncomputable def clusterPoliceAlerts (alerts : List Alert) (radiusMeters : ℝ) :
    List (Cluster AlertKey Alert) :=
  (clusterCore (fun p c => haversineMeters p.location c.location ≤ radiusMeters)
    alerts).map mkPoliceCluster

theorem clusterPoints_items (pts : List RadarPoint) (r : ℝ) :
    (clusterPoints pts r).map (fun c => c.items) =
      clusterCore (fun p c => haversineMeters ⟨p.lat, p.lng⟩ ⟨c.lat, c.lng⟩ ≤ r) pts := by
  rw [clusterPoints, List.map_map]
  have hid : ((fun c : Cluster String RadarPoint => c.items) ∘ mkPointCluster) =
      fun cl => cl := by
    funext cl
    rfl
  rw [hid, List.map_id']

theorem clusterPoliceAlerts_items (alerts : List Alert) (r : ℝ) :
    (clusterPoliceAlerts alerts r).map (fun c => c.items) =
      clusterCore (fun p c => haversineMeters p.location c.location ≤ r) alerts := by
  rw [clusterPoliceAlerts, List.map_map]
  have hid : ((fun c : Cluster AlertKey Alert => c.items) ∘ mkPoliceCluster) =
      fun cl => cl := by
    funext cl
    rfl
  rw [hid, List.map_id']

/-- C9: both clusterers partition their input: the concatenation of all
clusters' member lists is a permutation of the input list, every cluster is
non-empty, each `count` equals the length of its `items`, and the counts sum
to the input length. -/
theorem cluster_partition (pts : List RadarPoint) (alerts : List Alert) (r : ℝ) :
    ((clusterPoints pts r).map (fun c => c.items)).flatten.Perm pts ∧
    (∀ c ∈ clusterPoints pts r, c.items ≠ [] ∧ c.count = c.items.length) ∧
    ((clusterPoints pts r).map (fun c => c.count)).sum = pts.length ∧
    ((clusterPoliceAlerts alerts r).map (fun c => c.items)).flatten.Perm alerts ∧
    (∀ c ∈ clusterPoliceAlerts alerts r, c.items ≠ [] ∧ c.count = c.items.length) ∧
    ((clusterPoliceAlerts alerts r).map (fun c => c.count)).sum = alerts.length := by
  have hp1 : ((clusterPoints pts r).map (fun c => c.items)).flatten.Perm pts := by
    rw [clusterPoints_items]
    exact clusterCore_flatten_perm _ pts
  have hp2 : ∀ c ∈ clusterPoints pts r, c.items ≠ [] ∧ c.count = c.items.length := by
    intro c hc
    obtain ⟨cl, hcl, rfl⟩ := List.mem_map.mp hc
    refine ⟨clusterCore_members_nonempty _ pts cl hcl, rfl⟩
  have hp3 : ((clusterPoints pts r).map (fun c => c.count)).sum = pts.length := by
    have hcongr : (clusterPoints pts r).map (fun c => c.count) =
        ((clusterPoints pts r).map (fun c => c.items)).map List.length := by
      rw [List.map_map]
      apply List.map_congr_left
      intro c hc
      exact (hp2 c hc).2
    rw [hcongr, ← List.length_flatten]
    exact hp1.length_eq
  have ha1 : ((clusterPoliceAlerts alerts r).map (fun c => c.items)).flatten.Perm alerts := by
    rw [clusterPoliceAlerts_items]
    exact clusterCore_flatten_perm _ alerts
  have ha2 : ∀ c ∈ clusterPoliceAlerts alerts r, c.items ≠ [] ∧ c.count = c.items.length := by
    intro c hc
    obtain ⟨cl, hcl, rfl⟩ := List.mem_map.mp hc
    refine ⟨clusterCore_members_nonempty _ alerts cl hcl, rfl⟩
  have ha3 : ((clusterPoliceAlerts alerts r).map (fun c => c.count)).sum = alerts.length := by
    have hcongr : (clusterPoliceAlerts alerts r).map (fun c => c.count) =
        ((clusterPoliceAlerts alerts r).map (fun c => c.items)).map List.length := by
      rw [List.map_map]
      apply List.map_congr_left
      intro c hc
      exact (ha2 c hc).2
    rw [hcongr, ← List.length_flatten]
    exact ha1.length_eq
  exact ⟨hp1, hp2, hp3, ha1, ha2, ha3⟩

/-! ### Haversine distances on the equator, and the A/B/C clustering example -/

theorem haversineMeters_comm (a b : GeoPoint) : haversineMeters a b = haversineMeters b a := by
  simp only [haversineMeters, toRad]
  have key : ∀ u v : ℝ,
      Real.sin ((u - v) * Real.pi / 180 / 2) * Real.sin ((u - v) * Real.pi / 180 / 2) =
      Real.sin ((v - u) * Real.pi / 180 / 2) * Real.sin ((v - u) * Real.pi / 180 / 2) := by
    intro u v
    have h : (u - v) * Real.pi / 180 / 2 = -((v - u) * Real.pi / 180 / 2) := by ring
    rw [h, Real.sin_neg]
    ring
  rw [key b.lat a.lat]
  have harg : Real.cos (a.lat * Real.pi / 180) * Real.cos (b.lat * Real.pi / 180) *
      Real.sin ((b.lng - a.lng) * Real.pi / 180 / 2) *
      Real.sin ((b.lng - a.lng) * Real.pi / 180 / 2) =
      Real.cos (b.lat * Real.pi / 180) * Real.cos (a.lat * Real.pi / 180) *
      Real.sin ((a.lng - b.lng) * Real.pi / 180 / 2) *
      Real.sin ((a.lng - b.lng) * Real.pi / 180 / 2) := by
    have h : (b.lng - a.lng) * Real.pi / 180 / 2 = -((a.lng - b.lng) * Real.pi / 180 / 2) := by
      ring
    rw [h, Real.sin_neg]
    ring
  rw [harg]

/-- On the equator the haversine distance is exactly arc length: radius times
the longitude difference in radians. -/
theorem haversineMeters_equator (x y : ℝ) (h1 : 0 ≤ y - x) (h2 : y - x ≤ 180) :
    haversineMeters ⟨0, x⟩ ⟨0, y⟩ = 6371000 * ((y - x) * Real.pi / 180) := by
  have hpi : (0 : ℝ) < Real.pi := Real.pi_pos
  simp only [haversineMeters, toRad]
  have e1 : ((0 : ℝ) - 0) * Real.pi / 180 / 2 = 0 := by ring
  have e2 : (0 : ℝ) * Real.pi / 180 = 0 := by ring
  rw [e1, e2, Real.sin_zero, Real.cos_zero]
  set t := (y - x) * Real.pi / 180 / 2 with ht
  have harg : (0 : ℝ) * 0 + 1 * 1 * Real.sin t * Real.sin t = Real.sin t ^ 2 := by ring
  rw [harg]
  have ht0 : 0 ≤ t := by
    rw [ht]
    positivity
  have htpi2 : t ≤ Real.pi / 2 := by
    rw [ht]
    rw [div_le_div_iff (by norm_num) (by norm_num)]
    nlinarith
  have hsin0 : 0 ≤ Real.sin t :=
    Real.sin_nonneg_of_nonneg_of_le_pi ht0 (by linarith)
  rw [Real.sqrt_sq hsin0, min_eq_right (Real.sin_le_one t),
    Real.arcsin_sin (by linarith) (by linarith)]
  rw [ht]
  ring

/-- The three points of the clustering example from the design spec. -/
noncomputable def radarA : RadarPoint := ⟨"A", 0, 0, ""⟩

noncomputable def radarB : RadarPoint := ⟨"B", 0, 0.001, ""⟩

noncomputable def radarC : RadarPoint := ⟨"C", 0, 1, ""⟩

theorem dist_AB : haversineMeters ⟨0, 0⟩ ⟨0, 0.001⟩ ≤ 200 := by
  have h := haversineMeters_equator 0 0.001 (by norm_num) (by norm_num)
  rw [h]
  nlinarith [Real.pi_lt_d6]

theorem dist_BA : haversineMeters ⟨0, 0.001⟩ ⟨0, 0⟩ ≤ 200 := by
  rw [haversineMeters_comm]
  exact dist_AB

theorem dist_AC : ¬ haversineMeters ⟨0, 0⟩ ⟨0, 1⟩ ≤ 200 := by
  have h := haversineMeters_equator 0 1 (by norm_num) (by norm_num)
  rw [h]
  push_neg
  nlinarith [Real.pi_gt_d6]

theorem dist_CA : ¬ haversineMeters ⟨0, 1⟩ ⟨0, 0⟩ ≤ 200 := by
  rw [haversineMeters_comm]
  exact dist_AC

theorem dist_BC : ¬ haversineMeters ⟨0, 0.001⟩ ⟨0, 1⟩ ≤ 200 := by
  have h := haversineMeters_equator 0.001 1 (by norm_num) (by norm_num)
  rw [h]
  push_neg
  nlinarith [Real.pi_gt_d6]

theorem dist_CB : ¬ haversineMeters ⟨0, 1⟩ ⟨0, 0.001⟩ ≤ 200 := by
  rw [haversineMeters_comm]
  exact dist_BC

/-- Inverting a permutation of a two-element list. -/
theorem perm_pair_cases {α : Type*} {y z u v : α} (h : List.Perm [y, z] [u, v]) :
    (y = u ∧ z = v) ∨ (y = v ∧ z = u) := by
  have hy : y ∈ [u, v] := h.subset (by simp)
  rcases List.mem_cons.mp hy with rfl | hy2
  · left
    have h2 := h.cons_inv
    have h3 : [z] = [v] := List.perm_singleton.mp h2
    exact ⟨rfl, by simpa using h3⟩
  · have hyv : y = v := by simpa using hy2
    subst hyv
    right
    have h2 : List.Perm [y, z] [y, u] := h.trans (List.Perm.swap y u [])
    have h3 : [z] = [u] := List.perm_singleton.mp h2.cons_inv
    exact ⟨rfl, by simpa using h3⟩

/-- Inverting a permutation of a three-element list. -/
theorem perm_three_cases {α : Type*} {x y z a b c : α}
    (h : List.Perm [x, y, z] [a, b, c]) :
    (x = a ∧ y = b ∧ z = c) ∨ (x = a ∧ y = c ∧ z = b) ∨
    (x = b ∧ y = a ∧ z = c) ∨ (x = b ∧ y = c ∧ z = a) ∨
    (x = c ∧ y = a ∧ z = b) ∨ (x = c ∧ y = b ∧ z = a) := by
  have hx : x ∈ [a, b, c] := h.subset (by simp)
  rcases List.mem_cons.mp hx with rfl | hx2
  · have h2 := h.cons_inv
    rcases perm_pair_cases h2 with ⟨rfl, rfl⟩ | ⟨rfl, rfl⟩
    · exact Or.inl ⟨rfl, rfl, rfl⟩
    · exact Or.inr (Or.inl ⟨rfl, rfl, rfl⟩)
  rcases List.mem_cons.mp hx2 with rfl | hx3
  · have hmid : List.Perm [a, x, c] [x, a, c] := List.Perm.swap x a [c]
    have h2 := (h.trans hmid).cons_inv
    rcases perm_pair_cases h2 with ⟨rfl, rfl⟩ | ⟨rfl, rfl⟩
    · exact Or.inr (Or.inr (Or.inl ⟨rfl, rfl, rfl⟩))
    · exact Or.inr (Or.inr (Or.inr (Or.inl ⟨rfl, rfl, rfl⟩)))
  have hxc : x = c := by simpa using hx3
  subst hxc
  have hmid : List.Perm [a, b, x] [x, a, b] := by
    have h0 := @List.perm_middle _ x [a, b] ([] : List α)
    simpa using h0
  have h2 := (h.trans hmid).cons_inv
  rcases perm_pair_cases h2 with ⟨rfl, rfl⟩ | ⟨rfl, rfl⟩
  · exact Or.inr (Or.inr (Or.inr (Or.inr (Or.inl ⟨rfl, rfl, rfl⟩))))
  · exact Or.inr (Or.inr (Or.inr (Or.inr (Or.inr ⟨rfl, rfl, rfl⟩))))

/-- The nearness relation `clusterPoints` uses at radius 200 m. -/
noncomputable def nearRadarABC : RadarPoint → RadarPoint → Prop :=
  fun p c => haversineMeters ⟨p.lat, p.lng⟩ ⟨c.lat, c.lng⟩ ≤ 200

theorem clusterPoints_as_core (l : List RadarPoint) :
    clusterPoints l 200 = (clusterCore nearRadarABC l).map mkPointCluster := rfl

theorem absorbLoop_nil {α : Type*} (near : α → α → Prop) (cl : List α) :
    absorbLoop near cl [] = (cl, []) := by
  rw [absorbLoop]
  simp [absorbOncePass]

theorem clusterCore_nil {α : Type*} (near : α → α → Prop) :
    clusterCore near ([] : List α) = [] := by
  rw [clusterCore]
  simp

theorem stepABC_1 : absorbOncePass nearRadarABC [radarC] [] [radarB, radarA] false =
    ([radarC], [radarA, radarB], false) := by
  simp [absorbOncePass, nearRadarABC, radarA, radarB, radarC, dist_CB, dist_CA]

theorem stepABC_2 : absorbOncePass nearRadarABC [radarB] [] [radarA] false =
    ([radarB, radarA], [], true) := by
  simp [absorbOncePass, nearRadarABC, radarA, radarB, dist_BA]

theorem stepABC_4 : absorbOncePass nearRadarABC [radarB] [] [radarC, radarA] false =
    ([radarB, radarA], [radarC], true) := by
  simp [absorbOncePass, nearRadarABC, radarA, radarB, radarC, dist_BC, dist_BA]

theorem stepABC_5 : absorbOncePass nearRadarABC [radarB, radarA] [] [radarC] false =
    ([radarB, radarA], [radarC], false) := by
  simp [absorbOncePass, nearRadarABC, radarA, radarB, radarC, dist_BC, dist_AC]

theorem stepABC_7 : absorbOncePass nearRadarABC [radarC] [] [radarA, radarB] false =
    ([radarC], [radarB, radarA], false) := by
  simp [absorbOncePass, nearRadarABC, radarA, radarB, radarC, dist_CA, dist_CB]

theorem stepABC_8 : absorbOncePass nearRadarABC [radarA] [] [radarB] false =
    ([radarA, radarB], [], true) := by
  simp [absorbOncePass, nearRadarABC, radarA, radarB, dist_AB]

theorem stepABC_10 : absorbOncePass nearRadarABC [radarA] [] [radarC, radarB] false =
    ([radarA, radarB], [radarC], true) := by
  simp [absorbOncePass, nearRadarABC, radarA, radarB, radarC, dist_AC, dist_AB]

theorem stepABC_11 : absorbOncePass nearRadarABC [radarA, radarB] [] [radarC] false =
    ([radarA, radarB], [radarC], false) := by
  simp [absorbOncePass, nearRadarABC, radarA, radarB, radarC, dist_AC, dist_BC]

theorem stepABC_12 : absorbOncePass nearRadarABC [radarB] [] [radarA, radarC] false =
    ([radarB, radarA], [radarC], true) := by
  simp [absorbOncePass, nearRadarABC, radarA, radarB, radarC, dist_BA, dist_BC, dist_AC]

theorem stepABC_13 : absorbOncePass nearRadarABC [radarA] [] [radarB, radarC] false =
    ([radarA, radarB], [radarC], true) := by
  simp [absorbOncePass, nearRadarABC, radarA, radarB, radarC, dist_AB, dist_AC, dist_BC]

theorem loopABC_1 : absorbLoop nearRadarABC [radarC] [radarA, radarB] =
    ([radarC], [radarA, radarB]) := by
  rw [absorbLoop]
  have hrev : ([radarA, radarB] : List RadarPoint).reverse = [radarB, radarA] := rfl
  rw [hrev, stepABC_1]
  simp

theorem loopABC_2 : absorbLoop nearRadarABC [radarB] [radarA] = ([radarB, radarA], []) := by
  rw [absorbLoop]
  have hrev : ([radarA] : List RadarPoint).reverse = [radarA] := rfl
  rw [hrev, stepABC_2, dif_pos rfl]
  exact absorbLoop_nil nearRadarABC [radarB, radarA]

theorem loopABC_3 : absorbLoop nearRadarABC [radarA] [radarB] = ([radarA, radarB], []) := by
  rw [absorbLoop]
  have hrev : ([radarB] : List RadarPoint).reverse = [radarB] := rfl
  rw [hrev, stepABC_8, dif_pos rfl]
  exact absorbLoop_nil nearRadarABC [radarA, radarB]

theorem loopABC_4 : absorbLoop nearRadarABC [radarB, radarA] [radarC] =
    ([radarB, radarA], [radarC]) := by
  rw [absorbLoop]
  have hrev : ([radarC] : List RadarPoint).reverse = [radarC] := rfl
  rw [hrev, stepABC_5]
  simp

theorem loopABC_5 : absorbLoop nearRadarABC [radarA, radarB] [radarC] =
    ([radarA, radarB], [radarC]) := by
  rw [absorbLoop]
  have hrev : ([radarC] : List RadarPoint).reverse = [radarC] := rfl
  rw [hrev, stepABC_11]
  simp

theorem loopABC_6 : absorbLoop nearRadarABC [radarB] [radarA, radarC] =
    ([radarB, radarA], [radarC]) := by
  rw [absorbLoop]
  have hrev : ([radarA, radarC] : List RadarPoint).reverse = [radarC, radarA] := rfl
  rw [hrev, stepABC_4, dif_pos rfl]
  exact loopABC_4

theorem loopABC_7 : absorbLoop nearRadarABC [radarB] [radarC, radarA] =
    ([radarB, radarA], [radarC]) := by
  rw [absorbLoop]
  have hrev : ([radarC, radarA] : List RadarPoint).reverse = [radarA, radarC] := rfl
  rw [hrev, stepABC_12, dif_pos rfl]
  exact loopABC_4

theorem loopABC_8 : absorbLoop nearRadarABC [radarA] [radarB, radarC] =
    ([radarA, radarB], [radarC]) := by
  rw [absorbLoop]
  have hrev : ([radarB, radarC] : List RadarPoint).reverse = [radarC, radarB] := rfl
  rw [hrev, stepABC_10, dif_pos rfl]
  exact loopABC_5

theorem loopABC_9 : absorbLoop nearRadarABC [radarA] [radarC, radarB] =
    ([radarA, radarB], [radarC]) := by
  rw [absorbLoop]
  have hrev : ([radarC, radarB] : List RadarPoint).reverse = [radarB, radarC] := rfl
  rw [hrev, stepABC_13, dif_pos rfl]
  exact loopABC_5

theorem loopABC_10 : absorbLoop nearRadarABC [radarC] [radarB, radarA] =
    ([radarC], [radarB, radarA]) := by
  rw [absorbLoop]
  have hrev : ([radarB, radarA] : List RadarPoint).reverse = [radarA, radarB] := rfl
  rw [hrev, stepABC_7]
  simp

theorem coreABC_C : clusterCore nearRadarABC [radarC] = [[radarC]] := by
  rw [clusterCore, dif_neg (by simp : ¬([radarC] : List RadarPoint) = [])]
  have hgl : ∀ h, ([radarC] : List RadarPoint).getLast h = radarC := fun h => rfl
  have hdl : ([radarC] : List RadarPoint).dropLast = [] := rfl
  rw [hgl, hdl, absorbLoop_nil]
  show [radarC] :: clusterCore nearRadarABC [] = [[radarC]]
  rw [clusterCore_nil]

theorem coreABC_AB : clusterCore nearRadarABC [radarA, radarB] = [[radarB, radarA]] := by
  rw [clusterCore, dif_neg (by simp : ¬([radarA, radarB] : List RadarPoint) = [])]
  have hgl : ∀ h, ([radarA, radarB] : List RadarPoint).getLast h = radarB := fun h => rfl
  have hdl : ([radarA, radarB] : List RadarPoint).dropLast = [radarA] := rfl
  rw [hgl, hdl, loopABC_2]
  show [radarB, radarA] :: clusterCore nearRadarABC [] = [[radarB, radarA]]
  rw [clusterCore_nil]

theorem coreABC_BA : clusterCore nearRadarABC [radarB, radarA] = [[radarA, radarB]] := by
  rw [clusterCore, dif_neg (by simp : ¬([radarB, radarA] : List RadarPoint) = [])]
  have hgl : ∀ h, ([radarB, radarA] : List RadarPoint).getLast h = radarA := fun h => rfl
  have hdl : ([radarB, radarA] : List RadarPoint).dropLast = [radarB] := rfl
  rw [hgl, hdl, loopABC_3]
  show [radarA, radarB] :: clusterCore nearRadarABC [] = [[radarA, radarB]]
  rw [clusterCore_nil]

theorem coreABC_1 : clusterCore nearRadarABC [radarA, radarB, radarC] =
    [[radarC], [radarB, radarA]] := by
  rw [clusterCore, dif_neg (by simp : ¬([radarA, radarB, radarC] : List RadarPoint) = [])]
  have hgl : ∀ h, ([radarA, radarB, radarC] : List RadarPoint).getLast h = radarC :=
    fun h => rfl
  have hdl : ([radarA, radarB, radarC] : List RadarPoint).dropLast = [radarA, radarB] := rfl
  rw [hgl, hdl, loopABC_1]
  show [radarC] :: clusterCore nearRadarABC [radarA, radarB] = [[radarC], [radarB, radarA]]
  rw [coreABC_AB]

theorem coreABC_2 : clusterCore nearRadarABC [radarA, radarC, radarB] =
    [[radarB, radarA], [radarC]] := by
  rw [clusterCore, dif_neg (by simp : ¬([radarA, radarC, radarB] : List RadarPoint) = [])]
  have hgl : ∀ h, ([radarA, radarC, radarB] : List RadarPoint).getLast h = radarB :=
    fun h => rfl
  have hdl : ([radarA, radarC, radarB] : List RadarPoint).dropLast = [radarA, radarC] := rfl
  rw [hgl, hdl, loopABC_6]
  show [radarB, radarA] :: clusterCore nearRadarABC [radarC] = [[radarB, radarA], [radarC]]
  rw [coreABC_C]

theorem coreABC_3 : clusterCore nearRadarABC [radarB, radarA, radarC] =
    [[radarC], [radarA, radarB]] := by
  rw [clusterCore, dif_neg (by simp : ¬([radarB, radarA, radarC] : List RadarPoint) = [])]
  have hgl : ∀ h, ([radarB, radarA, radarC] : List RadarPoint).getLast h = radarC :=
    fun h => rfl
  have hdl : ([radarB, radarA, radarC] : List RadarPoint).dropLast = [radarB, radarA] := rfl
  rw [hgl, hdl, loopABC_10]
  show [radarC] :: clusterCore nearRadarABC [radarB, radarA] = [[radarC], [radarA, radarB]]
  rw [coreABC_BA]

theorem coreABC_4 : clusterCore nearRadarABC [radarB, radarC, radarA] =
    [[radarA, radarB], [radarC]] := by
  rw [clusterCore, dif_neg (by simp : ¬([radarB, radarC, radarA] : List RadarPoint) = [])]
  have hgl : ∀ h, ([radarB, radarC, radarA] : List RadarPoint).getLast h = radarA :=
    fun h => rfl
  have hdl : ([radarB, radarC, radarA] : List RadarPoint).dropLast = [radarB, radarC] := rfl
  rw [hgl, hdl, loopABC_8]
  show [radarA, radarB] :: clusterCore nearRadarABC [radarC] = [[radarA, radarB], [radarC]]
  rw [coreABC_C]

theorem coreABC_5 : clusterCore nearRadarABC [radarC, radarA, radarB] =
    [[radarB, radarA], [radarC]] := by
  rw [clusterCore, dif_neg (by simp : ¬([radarC, radarA, radarB] : List RadarPoint) = [])]
  have hgl : ∀ h, ([radarC, radarA, radarB] : List RadarPoint).getLast h = radarB :=
    fun h => rfl
  have hdl : ([radarC, radarA, radarB] : List RadarPoint).dropLast = [radarC, radarA] := rfl
  rw [hgl, hdl, loopABC_7]
  show [radarB, radarA] :: clusterCore nearRadarABC [radarC] = [[radarB, radarA], [radarC]]
  rw [coreABC_C]

theorem coreABC_6 : clusterCore nearRadarABC [radarC, radarB, radarA] =
    [[radarA, radarB], [radarC]] := by
  rw [clusterCore, dif_neg (by simp : ¬([radarC, radarB, radarA] : List RadarPoint) = [])]
  have hgl : ∀ h, ([radarC, radarB, radarA] : List RadarPoint).getLast h = radarA :=
    fun h => rfl
  have hdl : ([radarC, radarB, radarA] : List RadarPoint).dropLast = [radarC, radarB] := rfl
  rw [hgl, hdl, loopABC_9]
  show [radarA, radarB] :: clusterCore nearRadarABC [radarC] = [[radarA, radarB], [radarC]]
  rw [coreABC_C]

theorem mkAB_props (m : List RadarPoint)
    (hm : m = [radarB, radarA] ∨ m = [radarA, radarB]) :
    List.Perm (mkPointCluster m).items [radarA, radarB] ∧
    (mkPointCluster m).center.lat = (radarA.lat + radarB.lat) / 2 ∧
    (mkPointCluster m).center.lng = (radarA.lng + radarB.lng) / 2 := by
  rcases hm with rfl | rfl
  · refine ⟨List.Perm.swap radarA radarB [], ?_, ?_⟩
    · simp [mkPointCluster, radarA, radarB]
    · simp [mkPointCluster, radarA, radarB]
  · refine ⟨List.Perm.refl _, ?_, ?_⟩
    · simp [mkPointCluster, radarA, radarB]
    · simp [mkPointCluster, radarA, radarB]

/-- C6: for the points A(0,0), B(0,0.001), C(0,1) and radius 200 m, the
clusterer returns exactly two clusters whatever the pop order (any input
permutation): one whose member set is exactly A and B, with center the
unweighted coordinate-wise mean of A and B, and one whose member list is
exactly C. -/
theorem cluster_ABC_two_clusters (l : List RadarPoint)
    (hl : List.Perm l [radarA, radarB, radarC]) :
    (clusterPoints l 200).length = 2 ∧
    (∃ c ∈ clusterPoints l 200, List.Perm c.items [radarA, radarB] ∧
      c.center.lat = (radarA.lat + radarB.lat) / 2 ∧
      c.center.lng = (radarA.lng + radarB.lng) / 2) ∧
    (∃ c ∈ clusterPoints l 200, c.items = [radarC]) := by
  have hlen : l.length = 3 := by
    have := hl.length_eq
    simpa using this
  match l, hlen with
  | [x, y, z], _ =>
  rcases perm_three_cases hl with h3 | h3 | h3 | h3 | h3 | h3 <;>
    obtain ⟨rfl, rfl, rfl⟩ := h3
  · rw [clusterPoints_as_core, coreABC_1]
    exact ⟨rfl,
      ⟨mkPointCluster [radarB, radarA], by simp, mkAB_props _ (Or.inl rfl)⟩,
      ⟨mkPointCluster [radarC], by simp, rfl⟩⟩
  · rw [clusterPoints_as_core, coreABC_2]
    exact ⟨rfl,
      ⟨mkPointCluster [radarB, radarA], by simp, mkAB_props _ (Or.inl rfl)⟩,
      ⟨mkPointCluster [radarC], by simp, rfl⟩⟩
  · rw [clusterPoints_as_core, coreABC_3]
    exact ⟨rfl,
      ⟨mkPointCluster [radarA, radarB], by simp, mkAB_props _ (Or.inr rfl)⟩,
      ⟨mkPointCluster [radarC], by simp, rfl⟩⟩
  · rw [clusterPoints_as_core, coreABC_4]
    exact ⟨rfl,
      ⟨mkPointCluster [radarA, radarB], by simp, mkAB_props _ (Or.inr rfl)⟩,
      ⟨mkPointCluster [radarC], by simp, rfl⟩⟩
  · rw [clusterPoints_as_core, coreABC_5]
    exact ⟨rfl,
      ⟨mkPointCluster [radarB, radarA], by simp, mkAB_props _ (Or.inl rfl)⟩,
      ⟨mkPointCluster [radarC], by simp, rfl⟩⟩
  · rw [clusterPoints_as_core, coreABC_6]
    exact ⟨rfl,
      ⟨mkPointCluster [radarA, radarB], by simp, mkAB_props _ (Or.inr rfl)⟩,
      ⟨mkPointCluster [radarC], by simp, rfl⟩⟩

/-- Witness for C6: the hypothesis is satisfiable at the literal input list
`[A, B, C]`, where the two clusters are produced as stated. -/
theorem cluster_ABC_two_clusters_witness :
    (clusterPoints [radarA, radarB, radarC] 200).length = 2 ∧
    (∃ c ∈ clusterPoints [radarA, radarB, radarC] 200,
      List.Perm c.items [radarA, radarB] ∧
      c.center.lat = (radarA.lat + radarB.lat) / 2 ∧
      c.center.lng = (radarA.lng + radarB.lng) / 2) ∧
    (∃ c ∈ clusterPoints [radarA, radarB, radarC] 200, c.items = [radarC]) :=
  cluster_ABC_two_clusters [radarA, radarB, radarC] (List.Perm.refl _)

/-! ### ViewportPointFilter -/

noncomputable def MIN_SPEED_RADAR_RENDER_ZOOM : ℝ := 6

def MAX_VISIBLE_SPEED_RADARS : ℕ := 8000

noncomputable def SPEED_RADAR_VIEW_PADDING_METERS : ℝ := 50000

noncomputable def SPEED_RADAR_CLUSTER_RADIUS_METERS : ℝ := 200

/-- `isPointInBounds` from the source, with dateline handling. -/
noncomputable def isPointInBounds (p : GeoPoint) (bounds : Option LLBounds) : Prop :=
  match bounds with
  | none => False
  | some b =>
    if b.north < p.lat ∨ p.lat < b.south then False
    else if normalizeLng b.east < normalizeLng b.west then
      normalizeLng b.west ≤ normalizeLng p.lng ∨ normalizeLng p.lng ≤ normalizeLng b.east
    else
      normalizeLng b.west ≤ normalizeLng p.lng ∧ normalizeLng p.lng ≤ normalizeLng b.east

/-- `isPointInBoundsPadded` from the source: expand the bounds by the padding
(meters converted to degrees, the longitude scale floor-clamped at 0.15) and
test membership. -/
noncomputable def isPointInBoundsPadded (p : GeoPoint) (bounds : Option LLBounds)
    (padMeters : ℝ) : Prop :=
  match bounds with
  | none => False
  | some b =>
    let latPad := padMeters / 111320
    let lngPad := padMeters /
      (111320 * max 0.15 (Real.cos ((b.south + b.north) / 2 * Real.pi / 180)))
    isPointInBounds p (some (latLngBounds (b.south - latPad) (b.west - lngPad)
      (b.north + latPad) (b.east + lngPad)))

/-- The result record of `speedRadarsInView`. -/
structure RadarView where
  clusters : List (Cluster String RadarPoint)
  inViewCount : ℕ
  tooMany : Bool

/-- The `for (const p of active)` loop of `speedRadarsInView`, with its early
`return` on budget overflow modelled by the `Bool` component. -/
noncomputable def radarScan (b : Option LLBounds) :
    List RadarPoint → List RadarPoint → ℕ → List RadarPoint × ℕ × Bool
  | [], visible, cnt => (visible, cnt, false)
  | p :: rest, visible, cnt =>
    if isPointInBoundsPadded ⟨p.lat, p.lng⟩ b SPEED_RADAR_VIEW_PADDING_METERS then
      if MAX_VISIBLE_SPEED_RADARS < cnt + 1 then
        ((if visible.length ≤ MAX_VISIBLE_SPEED_RADARS then visible ++ [p] else visible),
          cnt + 1, true)
      else
        radarScan b rest
          (if visible.length ≤ MAX_VISIBLE_SPEED_RADARS then visible ++ [p] else visible)
          (cnt + 1)
    else radarScan b rest visible cnt

/-- `speedRadarsInView` from the source (the `useMemo` body). -/
noncomputable def speedRadarsInView (active : List RadarPoint) (showSpeedRadars : Bool)
    (mapBounds : Option LLBounds) (mapZoom : ℝ) (speedRadarsWorldLoading : Bool) :
    RadarView :=
  if showSpeedRadars = false then ⟨[], 0, false⟩
  else match mapBounds with
  | none => ⟨[], 0, false⟩
  | some b =>
    if mapZoom < MIN_SPEED_RADAR_RENDER_ZOOM then ⟨[], 0, false⟩
    else if speedRadarsWorldLoading = true then ⟨[], 0, false⟩
    else
      match radarScan (some b) active [] 0 with
      | (_, cnt, true) => ⟨[], cnt, true⟩
      | (visible, cnt, false) =>
        ⟨clusterPoints visible SPEED_RADAR_CLUSTER_RADIUS_METERS, cnt, false⟩

theorem radarScan_complete (b : Option LLBounds) (rest : List RadarPoint) :
    ∀ (visible : List RadarPoint) (cnt : ℕ), visible.length = cnt →
      cnt + rest.countP (fun p => decide (isPointInBoundsPadded ⟨p.lat, p.lng⟩ b
        SPEED_RADAR_VIEW_PADDING_METERS)) ≤ MAX_VISIBLE_SPEED_RADARS →
      radarScan b rest visible cnt =
        (visible ++ rest.filter (fun p => decide (isPointInBoundsPadded ⟨p.lat, p.lng⟩ b
          SPEED_RADAR_VIEW_PADDING_METERS)),
         cnt + rest.countP (fun p => decide (isPointInBoundsPadded ⟨p.lat, p.lng⟩ b
          SPEED_RADAR_VIEW_PADDING_METERS)), false) := by
  induction rest with
  | nil =>
    intro visible cnt hv hb
    simp [radarScan]
  | cons p rest ih =>
    intro visible cnt hv hb
    by_cases h : isPointInBoundsPadded ⟨p.lat, p.lng⟩ b SPEED_RADAR_VIEW_PADDING_METERS
    · rw [List.countP_cons_of_pos _ _ (by simp [h])] at hb ⊢
      rw [List.filter_cons_of_pos (by simp [h])]
      have hcnt1 : ¬ MAX_VISIBLE_SPEED_RADARS < cnt + 1 := by omega
      have hpush : visible.length ≤ MAX_VISIBLE_SPEED_RADARS := by omega
      rw [radarScan, if_pos h, if_neg hcnt1, if_pos hpush]
      have hlen : (visible ++ [p]).length = cnt + 1 := by
        simp [hv]
      have hrec := ih (visible ++ [p]) (cnt + 1) hlen (by omega)
      rw [hrec]
      simp only [Prod.mk.injEq]
      refine ⟨by simp, by omega, trivial⟩
    · rw [List.countP_cons_of_neg _ _ (by simp [h])] at hb ⊢
      rw [List.filter_cons_of_neg (by simp [h])]
      rw [radarScan, if_neg h]
      exact ih visible cnt hv hb

theorem radarScan_overflow (b : Option LLBounds) (rest : List RadarPoint) :
    ∀ (visible : List RadarPoint) (cnt : ℕ), visible.length = cnt →
      cnt ≤ MAX_VISIBLE_SPEED_RADARS →
      MAX_VISIBLE_SPEED_RADARS < cnt + rest.countP
        (fun p => decide (isPointInBoundsPadded ⟨p.lat, p.lng⟩ b
          SPEED_RADAR_VIEW_PADDING_METERS)) →
      (radarScan b rest visible cnt).2.2 = true := by
  induction rest with
  | nil =>
    intro visible cnt hv hle hov
    simp only [List.countP_nil, Nat.add_zero] at hov
    omega
  | cons p rest ih =>
    intro visible cnt hv hle hov
    by_cases h : isPointInBoundsPadded ⟨p.lat, p.lng⟩ b SPEED_RADAR_VIEW_PADDING_METERS
    · rw [List.countP_cons_of_pos _ _ (by simp [h])] at hov
      by_cases hcnt1 : MAX_VISIBLE_SPEED_RADARS < cnt + 1
      · rw [radarScan, if_pos h, if_pos hcnt1]
      · rw [radarScan, if_pos h, if_neg hcnt1]
        have hpush : visible.length ≤ MAX_VISIBLE_SPEED_RADARS := by omega
        rw [if_pos hpush]
        have hlen : (visible ++ [p]).length = cnt + 1 := by
          simp [hv]
        exact ih (visible ++ [p]) (cnt + 1) hlen (by omega) (by omega)
    · rw [List.countP_cons_of_neg _ _ (by simp [h])] at hov
      rw [radarScan, if_neg h]
      exact ih visible cnt hv hle hov

/-- C5: at or above the zoom floor, the viewport filter is all-or-nothing: if
strictly more than the budget of points lie in the padded viewport it reports
`tooMany` with an empty render list; otherwise all in-view points are
rendered (the clusters' members are exactly the in-view points); in no case
is a non-empty proper subset rendered. -/
theorem speed_radars_all_or_nothing (pts : List RadarPoint) (b : LLBounds) (zoom : ℝ)
    (hz : MIN_SPEED_RADAR_RENDER_ZOOM ≤ zoom) :
    let inView := pts.filter (fun p => decide (isPointInBoundsPadded ⟨p.lat, p.lng⟩
      (some b) SPEED_RADAR_VIEW_PADDING_METERS))
    let res := speedRadarsInView pts true (some b) zoom false
    (MAX_VISIBLE_SPEED_RADARS < inView.length →
      res.tooMany = true ∧ res.clusters = []) ∧
    (inView.length ≤ MAX_VISIBLE_SPEED_RADARS →
      res.tooMany = false ∧
      List.Perm ((res.clusters.map (fun c => c.items)).flatten) inView) ∧
    ((res.clusters.map (fun c => c.items)).flatten = [] ∨
      List.Perm ((res.clusters.map (fun c => c.items)).flatten) inView) := by
  intro inView res
  have hcount : pts.countP (fun p => decide (isPointInBoundsPadded ⟨p.lat, p.lng⟩
      (some b) SPEED_RADAR_VIEW_PADDING_METERS)) = inView.length :=
    List.countP_eq_length_filter _ _
  have hred : res = (match radarScan (some b) pts [] 0 with
      | (_, cnt, true) => (⟨[], cnt, true⟩ : RadarView)
      | (visible, cnt, false) =>
        ⟨clusterPoints visible SPEED_RADAR_CLUSTER_RADIUS_METERS, cnt, false⟩) := by
    have hstep : speedRadarsInView pts true (some b) zoom false =
        (if zoom < MIN_SPEED_RADAR_RENDER_ZOOM then (⟨[], 0, false⟩ : RadarView)
         else match radarScan (some b) pts [] 0 with
           | (_, cnt, true) => ⟨[], cnt, true⟩
           | (visible, cnt, false) =>
             ⟨clusterPoints visible SPEED_RADAR_CLUSTER_RADIUS_METERS, cnt, false⟩) := rfl
    show speedRadarsInView pts true (some b) zoom false = _
    rw [hstep, if_neg (not_lt.mpr hz)]
  by_cases hle : inView.length ≤ MAX_VISIBLE_SPEED_RADARS
  · have hscan := radarScan_complete (some b) pts [] 0 rfl (by omega)
    have hres : res = ⟨clusterPoints inView SPEED_RADAR_CLUSTER_RADIUS_METERS,
        inView.length, false⟩ := by
      rw [hred, hscan]
      simp [hcount, inView]
    have hperm : List.Perm ((res.clusters.map (fun c => c.items)).flatten) inView := by
      rw [hres]
      show List.Perm (((clusterPoints inView SPEED_RADAR_CLUSTER_RADIUS_METERS).map
        (fun c => c.items)).flatten) inView
      rw [clusterPoints_items]
      exact clusterCore_flatten_perm _ inView
    refine ⟨fun hgt => absurd hgt (by omega), fun _ => ⟨by rw [hres], hperm⟩,
      Or.inr hperm⟩
  · push_neg at hle
    have hscan := radarScan_overflow (some b) pts [] 0 rfl (by omega) (by omega)
    rcases hsc : radarScan (some b) pts [] 0 with ⟨vis, cnt, fl⟩
    rw [hsc] at hscan
    have hfl : fl = true := hscan
    subst hfl
    have hres : res = ⟨[], cnt, true⟩ := by
      rw [hred, hsc]
    refine ⟨fun _ => ⟨by rw [hres], by rw [hres]⟩,
      fun hcon => absurd hcon (by omega),
      Or.inl (by rw [hres]; simp)⟩

/-- Witness for C5: the zoom-floor hypothesis is satisfiable, at the zoom
floor itself with an empty point collection. -/
theorem speed_radars_all_or_nothing_witness :
    let inView := ([] : List RadarPoint).filter (fun p =>
      decide (isPointInBoundsPadded ⟨p.lat, p.lng⟩ (some ⟨1, 0, 0, 1⟩)
        SPEED_RADAR_VIEW_PADDING_METERS))
    let res := speedRadarsInView [] true (some ⟨1, 0, 0, 1⟩)
      MIN_SPEED_RADAR_RENDER_ZOOM false
    (MAX_VISIBLE_SPEED_RADARS < inView.length →
      res.tooMany = true ∧ res.clusters = []) ∧
    (inView.length ≤ MAX_VISIBLE_SPEED_RADARS →
      res.tooMany = false ∧
      List.Perm ((res.clusters.map (fun c => c.items)).flatten) inView) ∧
    ((res.clusters.map (fun c => c.items)).flatten = [] ∨
      List.Perm ((res.clusters.map (fun c => c.items)).flatten) inView) :=
  speed_radars_all_or_nothing [] ⟨1, 0, 0, 1⟩ MIN_SPEED_RADAR_RENDER_ZOOM (le_refl _)

/-! ### JS `Map` insertion-order semantics

`new Map(entries)` sets each entry in order: a repeated key keeps its first
position but takes the latest value; `Array.from(map.values())` then lists the
values in first-insertion order. -/

def mapInsert {κ α : Type*} [DecidableEq κ] : List (κ × α) → κ → α → List (κ × α)
  | [], k, v => [(k, v)]
  | (k0, v0) :: rest, k, v =>
    if k0 = k then (k, v) :: rest else (k0, v0) :: mapInsert rest k v

def jsMapPairs {κ α : Type*} [DecidableEq κ] (l : List (κ × α)) : List (κ × α) :=
  l.foldl (fun m kv => mapInsert m kv.1 kv.2) []

def jsMapValues {κ α : Type*} [DecidableEq κ] (l : List (κ × α)) : List α :=
  (jsMapPairs l).map (fun kv => kv.2)

def assocFind {κ α : Type*} [DecidableEq κ] : List (κ × α) → κ → Option α
  | [], _ => none
  | (k0, v0) :: rest, k => if k0 = k then some v0 else assocFind rest k

/-- The value of the last entry of `l` with key `k`. -/
def lastAssoc {κ α : Type*} [DecidableEq κ] (l : List (κ × α)) (k : κ) : Option α :=
  ((l.filter (fun kv => decide (kv.1 = k))).getLast?).map (fun kv => kv.2)

theorem getLast?_mem {α : Type*} {l : List α} {a : α} (h : l.getLast? = some a) :
    a ∈ l := by
  induction l using List.reverseRecOn with
  | nil => simp at h
  | append_singleton l x _ =>
    rw [List.getLast?_concat] at h
    obtain rfl : x = a := by simpa using h
    simp

theorem mem_keys_mapInsert {κ α : Type*} [DecidableEq κ]
    (m : List (κ × α)) (k : κ) (v : α) (k' : κ) :
    k' ∈ (mapInsert m k v).map Prod.fst ↔ k' ∈ m.map Prod.fst ∨ k' = k := by
  induction m with
  | nil => simp [mapInsert]
  | cons kv rest ih =>
    obtain ⟨k0, v0⟩ := kv
    by_cases h : k0 = k
    · subst h
      simp [mapInsert]
      tauto
    · simp [mapInsert, h, ih]
      tauto

theorem nodup_keys_mapInsert {κ α : Type*} [DecidableEq κ]
    {m : List (κ × α)} (h : (m.map Prod.fst).Nodup) (k : κ) (v : α) :
    ((mapInsert m k v).map Prod.fst).Nodup := by
  induction m with
  | nil => simp [mapInsert]
  | cons kv rest ih =>
    obtain ⟨k0, v0⟩ := kv
    simp only [List.map_cons, List.nodup_cons] at h
    by_cases hk : k0 = k
    · subst hk
      simpa [mapInsert] using h
    · simp only [mapInsert, if_neg hk, List.map_cons, List.nodup_cons]
      refine ⟨?_, ih h.2⟩
      intro hmem
      rcases (mem_keys_mapInsert rest k v k0).mp hmem with hin | heq
      · exact h.1 hin
      · exact hk heq

theorem jsMapPairs_keys_nodup {κ α : Type*} [DecidableEq κ] (l : List (κ × α)) :
    ((jsMapPairs l).map Prod.fst).Nodup := by
  suffices H : ∀ (m : List (κ × α)), (m.map Prod.fst).Nodup →
      ((l.foldl (fun m kv => mapInsert m kv.1 kv.2) m).map Prod.fst).Nodup by
    exact H [] (by simp)
  induction l with
  | nil => intro m hm; simpa using hm
  | cons kv rest ih =>
    intro m hm
    exact ih (mapInsert m kv.1 kv.2) (nodup_keys_mapInsert hm kv.1 kv.2)

theorem mem_keys_jsMapPairs {κ α : Type*} [DecidableEq κ] (l : List (κ × α)) (k : κ) :
    k ∈ (jsMapPairs l).map Prod.fst ↔ k ∈ l.map Prod.fst := by
  suffices H : ∀ (m : List (κ × α)),
      (k ∈ ((l.foldl (fun m kv => mapInsert m kv.1 kv.2) m).map Prod.fst) ↔
        k ∈ m.map Prod.fst ∨ k ∈ l.map Prod.fst) by
    have := H []
    simpa [jsMapPairs] using this
  induction l with
  | nil => intro m; simp
  | cons kv rest ih =>
    intro m
    simp only [List.foldl_cons, List.map_cons, List.mem_cons]
    rw [ih (mapInsert m kv.1 kv.2), mem_keys_mapInsert]
    tauto

theorem assocFind_mapInsert_self {κ α : Type*} [DecidableEq κ]
    (m : List (κ × α)) (k : κ) (v : α) :
    assocFind (mapInsert m k v) k = some v := by
  induction m with
  | nil => simp [mapInsert, assocFind]
  | cons kv rest ih =>
    obtain ⟨k0, v0⟩ := kv
    by_cases h : k0 = k
    · subst h
      simp [mapInsert, assocFind]
    · simp [mapInsert, assocFind, h, ih]

theorem assocFind_mapInsert_ne {κ α : Type*} [DecidableEq κ]
    (m : List (κ × α)) (k : κ) (v : α) {k' : κ} (hne : k' ≠ k) :
    assocFind (mapInsert m k v) k' = assocFind m k' := by
  induction m with
  | nil =>
    have h2 : ¬ k = k' := fun hh => hne hh.symm
    simp [mapInsert, assocFind, h2]
  | cons kv rest ih =>
    obtain ⟨k0, v0⟩ := kv
    by_cases h : k0 = k
    · subst h
      have h2 : ¬ k0 = k' := fun h2 => hne h2.symm
      simp [mapInsert, assocFind, h2]
    · by_cases h3 : k0 = k'
      · subst h3
        simp [mapInsert, assocFind, h]
      · simp [mapInsert, assocFind, h, h3, ih]

theorem assocFind_jsMapPairs {κ α : Type*} [DecidableEq κ] (l : List (κ × α)) (k : κ) :
    assocFind (jsMapPairs l) k = lastAssoc l k := by
  induction l using List.reverseRecOn with
  | nil => simp [jsMapPairs, assocFind, lastAssoc]
  | append_singleton l kv ih =>
    obtain ⟨k0, v0⟩ := kv
    have hfold : jsMapPairs (l ++ [(k0, v0)]) = mapInsert (jsMapPairs l) k0 v0 := by
      unfold jsMapPairs
      rw [List.foldl_concat]
    rw [hfold]
    by_cases h : k0 = k
    · subst h
      rw [assocFind_mapInsert_self]
      unfold lastAssoc
      rw [List.filter_append]
      have hkeep : List.filter (fun kv => decide (kv.1 = k0)) [(k0, v0)] = [(k0, v0)] := by
        simp
      rw [hkeep, List.getLast?_concat]
      rfl
    · rw [assocFind_mapInsert_ne _ _ _ (fun h2 => h h2.symm), ih]
      unfold lastAssoc
      rw [List.filter_append]
      have hdrop : List.filter (fun kv => decide (kv.1 = k)) [(k0, v0)] = [] := by
        simp [h]
      rw [hdrop, List.append_nil]

theorem assocFind_some_mem {κ α : Type*} [DecidableEq κ]
    {m : List (κ × α)} {k : κ} {v : α} (h : assocFind m k = some v) : (k, v) ∈ m := by
  induction m with
  | nil => simp [assocFind] at h
  | cons kv rest ih =>
    obtain ⟨k0, v0⟩ := kv
    by_cases hk : k0 = k
    · subst hk
      rw [assocFind, if_pos rfl] at h
      obtain rfl : v0 = v := by simpa using h
      simp
    · rw [assocFind, if_neg hk] at h
      exact List.mem_cons_of_mem _ (ih h)

theorem mem_assocFind_of_nodup {κ α : Type*} [DecidableEq κ]
    {m : List (κ × α)} (hnd : (m.map Prod.fst).Nodup) {k : κ} {v : α}
    (h : (k, v) ∈ m) : assocFind m k = some v := by
  induction m with
  | nil => simp at h
  | cons kv rest ih =>
    obtain ⟨k0, v0⟩ := kv
    simp only [List.map_cons, List.nodup_cons] at hnd
    rcases List.mem_cons.mp h with heq | hmem
    · have hk : k = k0 := congrArg Prod.fst heq
      have hv : v = v0 := congrArg Prod.snd heq
      subst hk
      subst hv
      rw [assocFind, if_pos rfl]
    · by_cases hk : k0 = k
      · subst hk
        exact absurd (List.mem_map_of_mem Prod.fst hmem) hnd.1
      · rw [assocFind, if_neg hk]
        exact ih hnd.2 hmem

theorem lastAssoc_some_mem {κ α : Type*} [DecidableEq κ]
    {l : List (κ × α)} {k : κ} {v : α} (h : lastAssoc l k = some v) : (k, v) ∈ l := by
  unfold lastAssoc at h
  obtain ⟨kv, hlast, hv⟩ := Option.map_eq_some'.mp h
  have hmem := getLast?_mem hlast
  have hfk : kv.1 = k := by
    have := List.of_mem_filter hmem
    simpa using this
  have hin : kv ∈ l := List.mem_of_mem_filter hmem
  obtain ⟨k1, v1⟩ := kv
  obtain rfl : k1 = k := hfk
  obtain rfl : v1 = v := hv
  exact hin

theorem jsMapPairs_entries_sub {κ α : Type*} [DecidableEq κ]
    {l : List (κ × α)} {kv : κ × α} (h : kv ∈ jsMapPairs l) : kv ∈ l := by
  obtain ⟨k, v⟩ := kv
  have hfind := mem_assocFind_of_nodup (jsMapPairs_keys_nodup l) h
  rw [assocFind_jsMapPairs] at hfind
  exact lastAssoc_some_mem hfind

/-! ### The published police alert set -/

/-- The `alerts.filter(isPoliceAlert).map(...).filter(Boolean)` pipeline. -/
noncomputable def policeFromAlerts (alerts : List RawAlert) : List Alert :=
  ((alerts.filter isPoliceAlert).map toAlert).filterMap (fun x => x)

/-- The published set: dedupe the mapped alerts by `p.id` through a JS `Map`
and take its values. -/
noncomputable def publishPolice (alerts : List RawAlert) : List Alert :=
  jsMapValues ((policeFromAlerts alerts).map (fun p => (p.id, p)))

theorem toAlert_some {a : RawAlert} {al : Alert} (h : toAlert a = some al) :
    al.raw = a ∧ a.locX.isSome ∧ a.locY.isSome ∧
    (∀ u, jsStr a.uuid = some u → al.id = AlertKey.fromUuid u) ∧
    (jsStr a.uuid = none → ∀ i, jsStr a.id = some i → al.id = AlertKey.fromId i) ∧
    (jsStr a.uuid = none → jsStr a.id = none →
      al.id = AlertKey.composite ((jsStr a.type).getD "unknown")
        al.location.lng al.location.lat (jsInt a.pubMillis)) := by
  unfold toAlert at h
  rcases hy : a.locY with - | lat
  · rw [hy] at h
    simp at h
  rcases hx : a.locX with - | lng
  · rw [hy, hx] at h
    simp at h
  rw [hy, hx] at h
  simp only [Option.some.injEq] at h
  subst h
  refine ⟨rfl, rfl, rfl, ?_, ?_, ?_⟩
  · intro u hu
    simp [hu]
  · intro hu i hi
    simp [hu, hi]
  · intro hu hi
    simp [hu, hi]

theorem mem_policeFromAlerts {raws : List RawAlert} {al : Alert}
    (h : al ∈ policeFromAlerts raws) :
    ∃ a ∈ raws, isPoliceAlert a = true ∧ toAlert a = some al := by
  unfold policeFromAlerts at h
  obtain ⟨x, hx, hxa⟩ := List.mem_filterMap.mp h
  subst hxa
  obtain ⟨a, ha, hta⟩ := List.mem_map.mp hx
  exact ⟨a, List.mem_of_mem_filter ha, List.of_mem_filter ha, hta⟩

theorem mem_publishPolice {raws : List RawAlert} {al : Alert}
    (h : al ∈ publishPolice raws) :
    al ∈ policeFromAlerts raws ∧
    lastAssoc ((policeFromAlerts raws).map (fun p => (p.id, p))) al.id = some al := by
  unfold publishPolice jsMapValues at h
  obtain ⟨kv, hkv, hsnd⟩ := List.mem_map.mp h
  have hsub := jsMapPairs_entries_sub hkv
  obtain ⟨p, _, hp⟩ := List.mem_map.mp hsub
  have hk1 : kv.1 = al.id := by
    rw [← hp] at hsnd ⊢
    simp only at hsnd ⊢
    rw [hsnd]
  have hfind := mem_assocFind_of_nodup
    (jsMapPairs_keys_nodup ((policeFromAlerts raws).map (fun p => (p.id, p))))
    (show (kv.1, kv.2) ∈ _ from by simpa using hkv)
  rw [assocFind_jsMapPairs, hk1, hsnd] at hfind
  have hmem : al ∈ policeFromAlerts raws := by
    have := lastAssoc_some_mem hfind
    obtain ⟨q, hq, hqeq⟩ := List.mem_map.mp this
    have : q = al := congrArg Prod.snd hqeq
    exact this ▸ hq
  exact ⟨hmem, hfind⟩

/-- C2 (amended): the published alert set discards every entry whose location
coordinates are not both numbers; each published alert's key is its raw
`uuid` when truthy, else the raw `id` when truthy, else the composite of
type, location coordinates and timestamp; keys are pairwise distinct and for
each key the last-seen mapped alert wins, every mapped key being present. -/
theorem police_publish_keys_and_dedup (raws : List RawAlert) :
    (∀ al ∈ publishPolice raws, al.raw.locX.isSome ∧ al.raw.locY.isSome) ∧
    (∀ al ∈ publishPolice raws,
      (∀ u, jsStr al.raw.uuid = some u → al.id = AlertKey.fromUuid u) ∧
      (jsStr al.raw.uuid = none → ∀ i, jsStr al.raw.id = some i →
        al.id = AlertKey.fromId i) ∧
      (jsStr al.raw.uuid = none → jsStr al.raw.id = none →
        al.id = AlertKey.composite ((jsStr al.raw.type).getD "unknown")
          al.location.lng al.location.lat (jsInt al.raw.pubMillis))) ∧
    ((publishPolice raws).map (fun al => al.id)).Nodup ∧
    (∀ al ∈ publishPolice raws,
      ((policeFromAlerts raws).filter (fun p => decide (p.id = al.id))).getLast? =
        some al) ∧
    (∀ v ∈ policeFromAlerts raws, ∃ al ∈ publishPolice raws, al.id = v.id) := by
  have hkey : ∀ al ∈ publishPolice raws,
      al.raw.locX.isSome ∧ al.raw.locY.isSome ∧
      (∀ u, jsStr al.raw.uuid = some u → al.id = AlertKey.fromUuid u) ∧
      (jsStr al.raw.uuid = none → ∀ i, jsStr al.raw.id = some i →
        al.id = AlertKey.fromId i) ∧
      (jsStr al.raw.uuid = none → jsStr al.raw.id = none →
        al.id = AlertKey.composite ((jsStr al.raw.type).getD "unknown")
          al.location.lng al.location.lat (jsInt al.raw.pubMillis)) := by
    intro al hal
    obtain ⟨hmem, -⟩ := mem_publishPolice hal
    obtain ⟨a, -, -, hta⟩ := mem_policeFromAlerts hmem
    obtain ⟨hraw, hx, hy, h1, h2, h3⟩ := toAlert_some hta
    subst hraw
    exact ⟨hx, hy, h1, h2, h3⟩
  refine ⟨fun al hal => ⟨(hkey al hal).1, (hkey al hal).2.1⟩,
    fun al hal => (hkey al hal).2.2, ?_, ?_, ?_⟩
  · -- distinct keys
    have hids : (publishPolice raws).map (fun al => al.id) =
        (jsMapPairs ((policeFromAlerts raws).map (fun p => (p.id, p)))).map Prod.fst := by
      unfold publishPolice jsMapValues
      rw [List.map_map]
      apply List.map_congr_left
      intro kv hkv
      have hsub := jsMapPairs_entries_sub hkv
      obtain ⟨p, -, hp⟩ := List.mem_map.mp hsub
      rw [← hp]
      rfl
    rw [hids]
    exact jsMapPairs_keys_nodup _
  · -- last-seen wins
    intro al hal
    obtain ⟨-, hlast⟩ := mem_publishPolice hal
    unfold lastAssoc at hlast
    rw [@List.filter_map Alert (AlertKey × Alert)
      (fun kv => decide (kv.1 = al.id)) (fun p => (p.id, p))
      (policeFromAlerts raws)] at hlast
    rw [List.getLast?_map] at hlast
    have hfun : ((fun kv : AlertKey × Alert => decide (kv.1 = al.id)) ∘
        (fun p : Alert => (p.id, p))) = fun p : Alert => decide (p.id = al.id) := rfl
    rw [hfun] at hlast
    rcases hg : ((policeFromAlerts raws).filter
        (fun p => decide (p.id = al.id))).getLast? with - | q
    · rw [hg] at hlast
      simp at hlast
    · rw [hg] at hlast
      simp only [Option.map_some', Option.map_map, Option.some.injEq] at hlast
      have : q = al := by
        have := congrArg (fun o => o) hlast
        simpa using hlast
      rw [hg, this]
  · -- completeness
    intro v hv
    have hkeys : v.id ∈ (jsMapPairs ((policeFromAlerts raws).map
        (fun p => (p.id, p)))).map Prod.fst := by
      rw [mem_keys_jsMapPairs, List.map_map]
      exact List.mem_map.mpr ⟨v, hv, rfl⟩
    obtain ⟨kv, hkv, hfst⟩ := List.mem_map.mp hkeys
    refine ⟨kv.2, ?_, ?_⟩
    · unfold publishPolice jsMapValues
      exact List.mem_map.mpr ⟨kv, hkv, rfl⟩
    · have hsub := jsMapPairs_entries_sub hkv
      obtain ⟨p, -, hp⟩ := List.mem_map.mp hsub
      have h1 : kv.2.id = kv.1 := by
        rw [← hp]
      rw [h1, hfst]

/-! ### Retry-After parsing and the police fetch cycle -/

/-- Default backoff in seconds (source constant `DEFAULT_WAZE_RETRY_AFTER_SEC`). -/
def DEFAULT_WAZE_RETRY_AFTER_SEC : ℚ := 30

/-- Minimum spacing between fetch attempts in milliseconds (source constant). -/
def MIN_WAZE_FETCH_INTERVAL_MS : ℚ := 2500

/-- A `Retry-After` header value, abstracted through the host's parsers:
`present` is the JS truthiness of the raw header, `numVal` is `Number(v)`
when finite (`none` for `NaN` or infinite), `dateVal` is `Date.parse(v)`
when it is not `NaN`. -/
structure RetryAfterValue where
  present : Bool
  numVal : Option ℚ
  dateVal : Option ℚ

/-- `parseRetryAfterToMs` from the source, with `Date.now()` passed in as
`now`: an absent/falsy header or an unparseable one gives the 30 s default;
a finite number is accepted only when strictly positive and is read as
seconds; otherwise a parseable date gives the time remaining until it,
floored at zero. -/
def parseRetryAfterToMs (v : RetryAfterValue) (now : ℚ) : ℚ :=
  if v.present = false then DEFAULT_WAZE_RETRY_AFTER_SEC * 1000
  else
    match v.numVal with
    | some q =>
      if 0 < q then q * 1000
      else
        match v.dateVal with
        | some d => max 0 (d - now)
        | none => DEFAULT_WAZE_RETRY_AFTER_SEC * 1000
    | none =>
      match v.dateVal with
      | some d => max 0 (d - now)
      | none => DEFAULT_WAZE_RETRY_AFTER_SEC * 1000

/-- `Number(x.toFixed(5))` as an integer count of 1e-5 units: round to the
nearest, ties away from zero. -/
noncomputable def round5 (x : ℝ) : ℤ :=
  if 0 ≤ x then ⌊x * 100000 + 1/2⌋ else -⌊(-x) * 100000 + 1/2⌋

/-- The query key: the rounded request boxes together with the env string
(the JSON string of the source, represented structurally). -/
abbrev QueryKey : Type := List (ℤ × ℤ × ℤ × ℤ) × String

/-- The key built at line 627 of the effect: every request box rounded to
five decimals, tagged with the env. -/
noncomputable def mkQueryKey (boxes : List TileBox) (env : String) : QueryKey :=
  (boxes.map (fun b => (round5 b.top, round5 b.bottom, round5 b.left, round5 b.right)), env)

/-- The mutable refs the effect reads and writes. -/
structure PoliceState where
  backoffUntil : ℚ
  lastFetchAt : ℚ
  lastQueryKey : Option QueryKey

/-- One fetch response: `ok`, `status`, its `retry-after` header, and the
payload's `alerts` array when present. -/
structure WazeResp where
  ok : Bool
  status : ℕ
  retryAfter : RetryAfterValue
  alerts : Option (List RawAlert)

/-- The user-visible error message set by the cycle. -/
inductive PoliceMsg where
  | rateLimited (waitSec : ℤ)
  | requestFailed (status : ℕ)

/-- The outcome of one debounced `run()` cycle. -/
structure RunResult where
  state : PoliceState
  networkCalls : ℕ
  errorMsg : Option PoliceMsg
  published : Option (List Alert)

/-- The query key of this viewport. -/
noncomputable def policePlanKey (b : LLBounds) (zoom : ℝ) (env : String) : QueryKey :=
  mkQueryKey (buildWazeTileSnappedQuery (some b) zoom).requestBoxes env

/-- The responses of this cycle, one per request box, in order. -/
noncomputable def policeResps (b : LLBounds) (zoom : ℝ) (responses : ℕ → WazeResp) :
    List WazeResp :=
  (List.range (buildWazeTileSnappedQuery (some b) zoom).requestBoxes.length).map responses

/-- One `run()` cycle of the police fetch effect: cooldown check, throttle
check, query-key dedup, then the fetches; the first non-ok response aborts
the cycle (a 429 arms the backoff from the parsed `Retry-After`); otherwise
the flattened alerts are published and `lastFetchAt` advances. `now` is
`Date.now()` at entry, `tAfter` is `Date.now()` after the round-trip. -/
noncomputable def runPoliceCycle (b : LLBounds) (zoom : ℝ) (env : String)
    (s : PoliceState) (now tAfter : ℚ) (responses : ℕ → WazeResp) : RunResult :=
  if now < s.backoffUntil then
    ⟨s, 0, some (PoliceMsg.rateLimited ⌈(s.backoffUntil - now) / 1000⌉), none⟩
  else if now - s.lastFetchAt < MIN_WAZE_FETCH_INTERVAL_MS then
    ⟨s, 0, none, none⟩
  else if s.lastQueryKey = some (policePlanKey b zoom env) then
    ⟨s, 0, none, none⟩
  else
    match (policeResps b zoom responses).find? (fun r => !r.ok) with
    | some r =>
      if r.status = 429 then
        ⟨⟨tAfter + parseRetryAfterToMs r.retryAfter tAfter, s.lastFetchAt,
            some (policePlanKey b zoom env)⟩,
          (buildWazeTileSnappedQuery (some b) zoom).requestBoxes.length,
          some (PoliceMsg.rateLimited
            (max ⌈(tAfter + parseRetryAfterToMs r.retryAfter tAfter - tAfter) / 1000⌉ 1)),
          none⟩
      else
        ⟨⟨s.backoffUntil, s.lastFetchAt, some (policePlanKey b zoom env)⟩,
          (buildWazeTileSnappedQuery (some b) zoom).requestBoxes.length,
          some (PoliceMsg.requestFailed r.status), none⟩
    | none =>
      ⟨⟨s.backoffUntil, tAfter, some (policePlanKey b zoom env)⟩,
        (buildWazeTileSnappedQuery (some b) zoom).requestBoxes.length, none,
        some (publishPolice ((policeResps b zoom responses).flatMap
          (fun r => r.alerts.getD [])))⟩

theorem runPoliceCycle_cooldown (b : LLBounds) (zoom : ℝ) (env : String)
    (s : PoliceState) (now tAfter : ℚ) (responses : ℕ → WazeResp)
    (h : now < s.backoffUntil) :
    runPoliceCycle b zoom env s now tAfter responses =
      ⟨s, 0, some (PoliceMsg.rateLimited ⌈(s.backoffUntil - now) / 1000⌉), none⟩ := by
  unfold runPoliceCycle
  rw [if_pos h]

theorem runPoliceCycle_429 (b : LLBounds) (zoom : ℝ) (env : String)
    (s : PoliceState) (now tAfter : ℚ) (responses : ℕ → WazeResp) (r : WazeResp)
    (h1 : ¬ now < s.backoffUntil)
    (h2 : ¬ now - s.lastFetchAt < MIN_WAZE_FETCH_INTERVAL_MS)
    (h3 : ¬ s.lastQueryKey = some (policePlanKey b zoom env))
    (hfind : (policeResps b zoom responses).find? (fun x => !x.ok) = some r)
    (h429 : r.status = 429) :
    runPoliceCycle b zoom env s now tAfter responses =
      ⟨⟨tAfter + parseRetryAfterToMs r.retryAfter tAfter, s.lastFetchAt,
          some (policePlanKey b zoom env)⟩,
        (buildWazeTileSnappedQuery (some b) zoom).requestBoxes.length,
        some (PoliceMsg.rateLimited
          (max ⌈(tAfter + parseRetryAfterToMs r.retryAfter tAfter - tAfter) / 1000⌉ 1)),
        none⟩ := by
  unfold runPoliceCycle
  rw [if_neg h1, if_neg h2, if_neg h3, hfind]
  exact if_pos h429

theorem parseRetryAfterToMs_pos_num (v : RetryAfterValue) (now : ℚ) (q : ℚ)
    (hp : v.present = true) (hn : v.numVal = some q) (hq : 0 < q) :
    parseRetryAfterToMs v now = q * 1000 := by
  unfold parseRetryAfterToMs
  rw [hp, hn]
  simp only [Bool.true_eq_false, if_false]
  exact if_pos hq

/-- C3: a cycle entered strictly before `backoffUntil` makes no network call
and reports the cooldown message with `⌈remaining ms / 1000⌉` seconds; and a
cycle whose first failing response is a 429 carrying `Retry-After: 30` sets
`backoffUntil` to the post-roundtrip time plus 30000 ms, after which any
cycle entered before that instant again makes no network call and reports
the cooldown message. -/
theorem police_cooldown_and_backoff (b : LLBounds) (zoom : ℝ) (env : String)
    (s : PoliceState) (now tAfter : ℚ) (responses : ℕ → WazeResp) (r : WazeResp) :
    (now < s.backoffUntil →
      (runPoliceCycle b zoom env s now tAfter responses).networkCalls = 0 ∧
      (runPoliceCycle b zoom env s now tAfter responses).errorMsg =
        some (PoliceMsg.rateLimited ⌈(s.backoffUntil - now) / 1000⌉)) ∧
    (¬ now < s.backoffUntil →
      ¬ now - s.lastFetchAt < MIN_WAZE_FETCH_INTERVAL_MS →
      s.lastQueryKey ≠ some (policePlanKey b zoom env) →
      (policeResps b zoom responses).find? (fun x => !x.ok) = some r →
      r.status = 429 →
      r.retryAfter.present = true →
      r.retryAfter.numVal = some 30 →
      (runPoliceCycle b zoom env s now tAfter responses).state.backoffUntil =
        tAfter + 30000 ∧
      ∀ now2 tA2 : ℚ, ∀ resp2 : ℕ → WazeResp, now2 < tAfter + 30000 →
        (runPoliceCycle b zoom env
          (runPoliceCycle b zoom env s now tAfter responses).state
          now2 tA2 resp2).networkCalls = 0 ∧
        (runPoliceCycle b zoom env
          (runPoliceCycle b zoom env s now tAfter responses).state
          now2 tA2 resp2).errorMsg =
          some (PoliceMsg.rateLimited ⌈(tAfter + 30000 - now2) / 1000⌉)) := by
  constructor
  · intro h
    rw [runPoliceCycle_cooldown b zoom env s now tAfter responses h]
    exact ⟨rfl, rfl⟩
  · intro h1 h2 h3 hfind h429 hpres hnum
    have hrun := runPoliceCycle_429 b zoom env s now tAfter responses r h1 h2 h3 hfind h429
    have hparse : parseRetryAfterToMs r.retryAfter tAfter = 30000 := by
      rw [parseRetryAfterToMs_pos_num r.retryAfter tAfter 30 hpres hnum (by norm_num)]
      norm_num
    have hb : (runPoliceCycle b zoom env s now tAfter responses).state.backoffUntil =
        tAfter + 30000 := by
      rw [hrun]
      show tAfter + parseRetryAfterToMs r.retryAfter tAfter = tAfter + 30000
      rw [hparse]
    refine ⟨hb, ?_⟩
    intro now2 tA2 resp2 hlt
    have hcool : now2 < ((runPoliceCycle b zoom env s now tAfter responses).state).backoffUntil := by
      rw [hb]
      exact hlt
    rw [runPoliceCycle_cooldown b zoom env _ now2 tA2 resp2 hcool]
    refine ⟨rfl, ?_⟩
    show some (PoliceMsg.rateLimited
        ⌈((runPoliceCycle b zoom env s now tAfter responses).state.backoffUntil - now2) / 1000⌉) = _
    rw [hb]

/-- C4 (amended): a falsy/absent `Retry-After` value yields the 30000 ms
default; a finite numeric value is used as seconds (× 1000) only when it is
strictly positive; otherwise a parseable date yields the remaining
milliseconds floored at 0, and anything else the 30000 ms default; a 429
cycle then sets `backoffUntil` to the current time plus that parsed
duration. -/
theorem parse_retry_after_and_backoff (v : RetryAfterValue) (now tAfter : ℚ)
    (b : LLBounds) (zoom : ℝ) (env : String) (s : PoliceState)
    (responses : ℕ → WazeResp) (r : WazeResp) :
    (v.present = false → parseRetryAfterToMs v now = 30000) ∧
    (∀ q : ℚ, v.present = true → v.numVal = some q → 0 < q →
      parseRetryAfterToMs v now = q * 1000) ∧
    (∀ d : ℚ, v.present = true → (∀ q : ℚ, v.numVal = some q → q ≤ 0) →
      v.dateVal = some d → parseRetryAfterToMs v now = max 0 (d - now)) ∧
    (v.present = true → (∀ q : ℚ, v.numVal = some q → q ≤ 0) → v.dateVal = none →
      parseRetryAfterToMs v now = 30000) ∧
    (¬ now < s.backoffUntil → ¬ now - s.lastFetchAt < MIN_WAZE_FETCH_INTERVAL_MS →
      s.lastQueryKey ≠ some (policePlanKey b zoom env) →
      (policeResps b zoom responses).find? (fun x => !x.ok) = some r →
      r.status = 429 →
      (runPoliceCycle b zoom env s now tAfter responses).state.backoffUntil =
        tAfter + parseRetryAfterToMs r.retryAfter tAfter) := by
  refine ⟨?_, ?_, ?_, ?_, ?_⟩
  · intro h
    unfold parseRetryAfterToMs
    rw [if_pos h]
    norm_num [DEFAULT_WAZE_RETRY_AFTER_SEC]
  · intro q hp hn hq
    exact parseRetryAfterToMs_pos_num v now q hp hn hq
  · intro d hp hle hd
    unfold parseRetryAfterToMs
    rw [hp]
    simp only [Bool.true_eq_false, if_false]
    rcases hn : v.numVal with - | q
    · rw [hd]
    · rw [hd]
      show (if 0 < q then q * 1000 else max 0 (d - now)) = max 0 (d - now)
      rw [if_neg (not_lt.mpr (hle q hn))]
  · intro hp hle hd
    unfold parseRetryAfterToMs
    rw [hp]
    simp only [Bool.true_eq_false, if_false]
    rcases hn : v.numVal with - | q
    · rw [hd]
      norm_num [DEFAULT_WAZE_RETRY_AFTER_SEC]
    · rw [hd]
      show (if 0 < q then q * 1000 else DEFAULT_WAZE_RETRY_AFTER_SEC * 1000) = 30000
      rw [if_neg (not_lt.mpr (hle q hn))]
      norm_num [DEFAULT_WAZE_RETRY_AFTER_SEC]
  · intro h1 h2 h3 hfind h429
    rw [runPoliceCycle_429 b zoom env s now tAfter responses r h1 h2 h3 hfind h429]

/-- Counterexample for C4 as stated: a numeric `Retry-After` of `-30` is NOT
used as seconds (which would give -30000 ms); the parser falls through to
the 30000 ms default because the number is not strictly positive. -/
theorem parse_retry_after_negative_cex :
    parseRetryAfterToMs ⟨true, some (-30), none⟩ 0 = 30000 ∧
    ((-30 : ℚ) * 1000 ≠ 30000) := by
  constructor
  · unfold parseRetryAfterToMs
    norm_num [DEFAULT_WAZE_RETRY_AFTER_SEC]
  · norm_num

/-- A raw alert with no `uuid`, a raw `id` and numeric coordinates. -/
def rawNoUuid : RawAlert :=
  ⟨none, some "x", some "POLICE", none, none, none, some 5, some 1, some 2⟩

/-- Counterexample for C2 as stated: an alert with no `uuid` but with a raw
`id` is published under that `id`, not under the type/location/timestamp
composite the claim prescribes. -/
theorem police_key_raw_id_cex :
    (publishPolice [rawNoUuid]).map (fun al => al.id) = [AlertKey.fromId "x"] ∧
    AlertKey.fromId "x" ≠ AlertKey.composite "POLICE" 1 2 (some 5) := by
  constructor
  · rfl
  · intro h
    exact AlertKey.noConfusion h

/-! ### The primary warnings feed: shape check and identity keys -/

/-- One entry of the polled feed (`item`): any field may be absent, and a
`none` in the outer list models a falsy array entry. -/
structure WarnItem where
  userId : Option String
  url : Option String
  point : Option (List ℝ)
  created : Option ℤ

/-- JS template interpolation of a possibly-undefined string field. -/
def showOptStr : Option String → String
  | none => "undefined"
  | some s2 => s2

/-- JS template interpolation of a possibly-undefined integer field. -/
def showOptInt : Option ℤ → String
  | none => "undefined"
  | some i => toString i

/-- The identity key `` `${item.userId}-${item.url}-${item.created}` ``. -/
def warnKey (it : WarnItem) : String :=
  showOptStr it.userId ++ "-" ++ showOptStr it.url ++ "-" ++ showOptInt it.created

/-- A published warning marker. -/
structure Warning where
  id : String
  userId : Option String
  url : Option String
  point : List ℝ
  created : Option ℤ

/-- The fresh warning object built when no previous marker has this key. -/
def mkWarning (it : WarnItem) (pt : List ℝ) : Warning :=
  ⟨warnKey it, it.userId, it.url, pt, it.created⟩

/-- `prevById.get(id) || { ... }`: reuse the previous marker when present. -/
def warnEntry (prevById : List (String × Warning)) (it : WarnItem) (pt : List ℝ) :
    Warning :=
  match assocFind prevById (warnKey it) with
  | some w => w
  | none => mkWarning it pt

/-- The `for (const item of data)` loop accumulating `next`. -/
def warnLoop (prevById : List (String × Warning)) :
    List Warning → List (Option WarnItem) → List Warning
  | next, [] => next
  | next, none :: rest => warnLoop prevById next rest
  | next, some it :: rest =>
    match it.point with
    | none => warnLoop prevById next rest
    | some pt =>
      if pt.length = 2 then warnLoop prevById (next ++ [warnEntry prevById it pt]) rest
      else warnLoop prevById next rest

/-- One poll of `fetchWarnings`: build the previous-marker map and run the
loop over the response array. -/
def fetchWarningsNext (prev : List Warning) (data : List (Option WarnItem)) :
    List Warning :=
  warnLoop (jsMapPairs (prev.map (fun w => (w.id, w)))) [] data

/-- Whether an entry survives `!item || !item.point || item.point.length !== 2`. -/
def goodShape : Option WarnItem → Bool
  | none => false
  | some it =>
    match it.point with
    | none => false
    | some pt => decide (pt.length = 2)

/-- The entries the loop keeps, in order. -/
def keptItems : List (Option WarnItem) → List WarnItem
  | [] => []
  | none :: rest => keptItems rest
  | some it :: rest =>
    match it.point with
    | none => keptItems rest
    | some pt => if pt.length = 2 then it :: keptItems rest else keptItems rest

theorem warnLoop_cons_some (m : List (String × Warning)) (next : List Warning)
    (it : WarnItem) (rest : List (Option WarnItem)) :
    warnLoop m next (some it :: rest) =
      (match it.point with
       | none => warnLoop m next rest
       | some pt =>
         if pt.length = 2 then warnLoop m (next ++ [warnEntry m it pt]) rest
         else warnLoop m next rest) := rfl

theorem keptItems_cons_some (it : WarnItem) (rest : List (Option WarnItem)) :
    keptItems (some it :: rest) =
      (match it.point with
       | none => keptItems rest
       | some pt => if pt.length = 2 then it :: keptItems rest else keptItems rest) := rfl

theorem warnEntry_id (m : List (String × Warning)) (it : WarnItem) (pt : List ℝ)
    (hm : ∀ kv ∈ m, (kv.2).id = kv.1) :
    (warnEntry m it pt).id = warnKey it := by
  unfold warnEntry
  rcases h : assocFind m (warnKey it) with - | w
  · rfl
  · exact hm (warnKey it, w) (assocFind_some_mem h)

theorem warnLoop_filter (m : List (String × Warning)) :
    ∀ data next, warnLoop m next data = warnLoop m next (data.filter goodShape) := by
  intro data
  induction data with
  | nil => intro next; rfl
  | cons oit rest ih =>
    intro next
    rcases oit with - | it
    · rw [List.filter_cons_of_neg (by simp [goodShape])]
      exact ih next
    · rcases hp : it.point with - | pt
      · have hg : ¬ goodShape (some it) = true := by simp [goodShape, hp]
        rw [List.filter_cons_of_neg hg, warnLoop_cons_some, hp]
        exact ih next
      · by_cases hlen : pt.length = 2
        · have hg : goodShape (some it) = true := by simp [goodShape, hp, hlen]
          rw [List.filter_cons_of_pos hg, warnLoop_cons_some, hp]
          show (if pt.length = 2 then warnLoop m (next ++ [warnEntry m it pt]) rest
              else warnLoop m next rest) = _
          rw [if_pos hlen, warnLoop_cons_some, hp]
          show _ = (if pt.length = 2 then
              warnLoop m (next ++ [warnEntry m it pt]) (rest.filter goodShape)
            else warnLoop m next (rest.filter goodShape))
          rw [if_pos hlen]
          exact ih (next ++ [warnEntry m it pt])
        · have hg : ¬ goodShape (some it) = true := by simp [goodShape, hp, hlen]
          rw [List.filter_cons_of_neg hg, warnLoop_cons_some, hp]
          show (if pt.length = 2 then warnLoop m (next ++ [warnEntry m it pt]) rest
              else warnLoop m next rest) = _
          rw [if_neg hlen]
          exact ih next

theorem warnLoop_ids (m : List (String × Warning))
    (hm : ∀ kv ∈ m, (kv.2).id = kv.1) :
    ∀ data next, (warnLoop m next data).map (fun w => w.id) =
      next.map (fun w => w.id) ++ (keptItems data).map warnKey := by
  intro data
  induction data with
  | nil => intro next; simp [warnLoop, keptItems]
  | cons oit rest ih =>
    intro next
    rcases oit with - | it
    · show (warnLoop m next rest).map _ = _
      rw [ih next]
      rfl
    · rcases hp : it.point with - | pt
      · rw [warnLoop_cons_some, hp, keptItems_cons_some, hp]
        exact ih next
      · by_cases hlen : pt.length = 2
        · rw [warnLoop_cons_some, hp, keptItems_cons_some, hp]
          show (if pt.length = 2 then warnLoop m (next ++ [warnEntry m it pt]) rest
              else warnLoop m next rest).map (fun w => w.id) =
            next.map (fun w => w.id) ++ ((if pt.length = 2 then it :: keptItems rest
              else keptItems rest).map warnKey)
          rw [if_pos hlen, if_pos hlen, ih (next ++ [warnEntry m it pt])]
          simp [warnEntry_id m it pt hm]
        · rw [warnLoop_cons_some, hp, keptItems_cons_some, hp]
          show (if pt.length = 2 then warnLoop m (next ++ [warnEntry m it pt]) rest
              else warnLoop m next rest).map (fun w => w.id) =
            next.map (fun w => w.id) ++ ((if pt.length = 2 then it :: keptItems rest
              else keptItems rest).map warnKey)
          rw [if_neg hlen, if_neg hlen]
          exact ih next

/-- C8: every polled entry whose `point` is not a 2-element array is dropped
(processing the response is the same as processing its well-shaped
sublist), and every kept entry is published under the composite
`userId-url-created` identity key, in order. -/
theorem warnings_drop_and_key (prev : List Warning) (data : List (Option WarnItem)) :
    fetchWarningsNext prev data = fetchWarningsNext prev (data.filter goodShape) ∧
    (fetchWarningsNext prev data).map (fun w => w.id) =
      (keptItems data).map warnKey := by
  have hm : ∀ kv ∈ jsMapPairs (prev.map (fun w => (w.id, w))), (kv.2).id = kv.1 := by
    intro kv hkv
    have hsub := jsMapPairs_entries_sub hkv
    obtain ⟨w, -, hw⟩ := List.mem_map.mp hsub
    rw [← hw]
  constructor
  · unfold fetchWarningsNext
    exact warnLoop_filter _ data []
  · unfold fetchWarningsNext
    have h0 := warnLoop_ids _ hm data []
    simpa using h0

end WarnMap
